import Mathlib

/-!
Verification of `src/calc_0.1.py`, a command-line calculator with a bounded
JSON history log. The development shallowly embeds the two components of the
program:

* the evaluator `calculate`, built on a model of Python's `decimal.Decimal`
  (default context: 28 significant digits, `ROUND_HALF_EVEN`, `Emin = -999999`,
  `Emax = 999999`, with `InvalidOperation`, `DivisionByZero` and `Overflow`
  trapped, i.e. raised as exceptions);
* the history manager `manage_history`, with `json.dumps(…, indent=2)`
  serialization, the 50 MiB trimming loop, and the `try/except` wrapper, plus
  the interactive session loop of `main`.

Python exceptions are modelled with `Except`: the body of each `try` block is
a function into `Except`, and the embedded function matches on the outcome the
way the `except` clauses do. Machine-independent data (arbitrary-precision
integers, unicode strings) map to `Nat`/`Int`/`String` directly.
-/

set_option maxRecDepth 10000

/-- Number of bytes of the UTF-8 encoding of one code point (models
`len(ch.encode('utf-8'))` for a one-character Python string). -/
def utf8Len (c : Char) : Nat :=
  if c.val < 0x80 then 1
  else if c.val < 0x800 then 2
  else if c.val < 0x10000 then 3
  else 4

/-- Byte length of the UTF-8 encoding of a string given as its code points:
models `len(s.encode('utf-8'))`. -/
def byteSize (l : List Char) : Nat := (l.map utf8Len).sum

/-- The character for a single decimal digit value. -/
def digitChar (n : Nat) : Char := "0123456789".data.getD (n % 10) '0'

/-- The character for a single hexadecimal digit value, lowercase as produced
by Python's `'%04x'` formatting in JSON `\uXXXX` escapes. -/
def hexChar (n : Nat) : Char := "0123456789abcdef".data.getD (n % 16) '0'

/-- Fuel-driven worker for `digitChars`; the fuel is an upper bound on the
number of digits, so `digitChars` can feed it `n + 1`. -/
def digitsAux : Nat → Nat → List Char
  | 0, _ => []
  | fuel + 1, n => if n < 10 then [digitChar n] else digitsAux fuel (n / 10) ++ [digitChar (n % 10)]

/-- The decimal-digit string of a natural number: models Python `str(n)` for
`n ≥ 0`. -/
def digitChars (n : Nat) : List Char := digitsAux (n + 1) n

/-- `len(str(n))`: how many decimal digits `n` has (`numDigits 0 = 1`). -/
def numDigits (n : Nat) : Nat := (digitChars n).length

/-- The four-hex-digit string of `n % 0x10000`, as in a JSON `\uXXXX` escape. -/
def hex4 (n : Nat) : List Char :=
  [hexChar (n / 4096), hexChar (n / 256), hexChar (n / 16), hexChar n]

/-- Python `str` whitespace, as used by `str.split()` / `str.strip()` (the
ASCII portion plus the common Unicode space code points). -/
def isPySpace (c : Char) : Bool :=
  c = ' ' || c = '\t' || c = '\n' || c = '\x0b' || c = '\x0c' || c = '\r' ||
  c = '\x1c' || c = '\x1d' || c = '\x1e' || c = '\x1f' || c = '\x85' || c = '\xa0' ||
  c = '\u1680' || ('\u2000' ≤ c && c ≤ '\u200a') || c = '\u2028' || c = '\u2029' ||
  c = '\u202f' || c = '\u205f' || c = '\u3000'

/-- Worker for `pySplit`: the accumulator holds the current word reversed. -/
def splitAux : List Char → List Char → List (List Char)
  | [], acc => if acc.isEmpty then [] else [acc.reverse]
  | c :: rest, acc =>
    if isPySpace c then
      if acc.isEmpty then splitAux rest [] else acc.reverse :: splitAux rest []
    else splitAux rest (c :: acc)

/-- Python `s.split()` with no argument: split on runs of whitespace,
discarding empty pieces. -/
def pySplit (s : String) : List String := (splitAux s.data []).map String.mk

/-- Python `s.strip()`: remove leading and trailing whitespace. -/
def pyStrip (l : List Char) : List Char :=
  ((l.dropWhile (isPySpace ·)).reverse.dropWhile (isPySpace ·)).reverse

/-- Python `s.lower()` restricted to its ASCII action (the program's command
words `quit`/`exit`/`help` and all calculator syntax are ASCII). -/
def pyLower (s : String) : String := String.mk (s.data.map Char.toLower)

/-- A value of Python's `decimal.Decimal` class: a finite number
`(-1)^sign * coeff * 10^exp`, a signed infinity, or a (quiet or signaling)
NaN with a diagnostic payload. -/
inductive Decimal where
  | finite (sign : Bool) (coeff : Nat) (exp : Int)
  | inf (sign : Bool)
  | nan (sign : Bool) (signaling : Bool) (payload : Nat)
deriving DecidableEq

/-- The numeric value of a finite decimal as a rational; the special values
map to the junk value 0 (every theorem using `value` restricts to finite
operands). -/
def Decimal.value : Decimal → ℚ
  | .finite sign coeff exp => (if sign then -1 else 1) * coeff * 10 ^ exp
  | _ => 0

/-- Numeric value of a digit string. -/
def natOfDigits (l : List Char) : Nat := l.foldl (fun a c => 10 * a + (c.toNat - 48)) 0

/-- An optional leading `+`/`-`: `true` means negative. -/
def takeSign : List Char → Bool × List Char
  | '+' :: r => (false, r)
  | '-' :: r => (true, r)
  | l => (false, l)

/-- The optional exponent field of a decimal numeric string: empty input means
exponent 0, otherwise `e`/`E` (already lowercased), an optional sign and at
least one digit, consuming the whole rest of the string. -/
def parseExponentPart : List Char → Option Int
  | [] => some 0
  | 'e' :: r =>
    match takeSign r with
    | (sg, digits) =>
      if digits.isEmpty || !digits.all Char.isDigit then none
      else some (if sg then -(natOfDigits digits : Int) else (natOfDigits digits : Int))
  | _ => none

/-- The coefficient-and-exponent part of a decimal numeric string
(`digits [. digits] [exponent]` or `. digits [exponent]`), as accepted by the
`Decimal` constructor; leading zeros of the coefficient vanish because the
coefficient is read as a number. -/
def parseCoeffExp (l : List Char) : Option (Nat × Int) :=
  let ip := l.takeWhile Char.isDigit
  let r1 := l.dropWhile Char.isDigit
  match r1 with
  | '.' :: r2 =>
    let fp := r2.takeWhile Char.isDigit
    let r3 := r2.dropWhile Char.isDigit
    if ip.isEmpty && fp.isEmpty then none
    else
      match parseExponentPart r3 with
      | some ev => some (natOfDigits (ip ++ fp), ev - fp.length)
      | none => none
  | _ =>
    if ip.isEmpty then none
    else
      match parseExponentPart r1 with
      | some ev => some (natOfDigits ip, ev)
      | none => none

/-- Python `Decimal(s)` for a string argument: leading/trailing whitespace and
all underscores are removed, then the decimal numeric string grammar is
matched case-insensitively — an optional sign followed by a coefficient with
optional exponent, `Inf`/`Infinity`, or `NaN`/`sNaN` with an optional digit
payload. `none` models the `decimal.InvalidOperation` (`ConversionSyntax`)
exception. -/
def Decimal.parse (s : String) : Option Decimal :=
  let l := ((pyStrip s.data).filter (fun c => c ≠ '_')).map Char.toLower
  match takeSign l with
  | (sg, r) =>
    if r = "inf".data || r = "infinity".data then some (.inf sg)
    else if "nan".data.isPrefixOf r && (r.drop 3).all Char.isDigit then
      some (.nan sg false (natOfDigits (r.drop 3)))
    else if "snan".data.isPrefixOf r && (r.drop 4).all Char.isDigit then
      some (.nan sg true (natOfDigits (r.drop 4)))
    else
      match parseCoeffExp r with
      | some (c, e) => some (.finite sg c e)
      | none => none

/-- Default decimal context precision: 28 significant digits. -/
def prec : Nat := 28

/-- Default decimal context minimum adjusted exponent. -/
def Emin : Int := -999999

/-- Default decimal context maximum adjusted exponent. -/
def Emax : Int := 999999

/-- Minimum exponent of a subnormal coefficient digit: `Emin - prec + 1`. -/
def Etiny : Int := Emin - prec + 1

/-- Maximum exponent when the coefficient has full precision:
`Emax - prec + 1`. -/
def Etop : Int := Emax - prec + 1

/-- The Python exceptions the `try` block of `calculate` can see. The default
decimal context traps `InvalidOperation`, `DivisionByZero` and `Overflow`, so
those decimal signals surface as exceptions; `ValueError` is what the source's
first `except` clause names. Each carries its `str(e)` rendering. -/
inductive PyExc where
  | valueError (msg : String)
  | invalidOperation (msg : String)
  | divisionByZero (msg : String)
  | overflow (msg : String)
deriving DecidableEq

/-- Python `str(e)` of a caught exception. -/
def pyStr : PyExc → String
  | .valueError m => m
  | .invalidOperation m => m
  | .divisionByZero m => m
  | .overflow m => m

/-- Message of the `InvalidOperation` raised by `Decimal(str)` on a malformed
literal (CPython's `_decimal` renders the signal's condition class list). -/
def conversionSyntaxMsg : String := "[<class 'decimal.ConversionSyntax'>]"

/-- Message of a plain `InvalidOperation` from decimal arithmetic. -/
def invalidOperationMsg : String := "[<class 'decimal.InvalidOperation'>]"

/-- Message of the `InvalidOperation` raised by `0 / 0`. -/
def divisionUndefinedMsg : String := "[<class 'decimal.DivisionUndefined'>]"

/-- Message of a `DivisionByZero` from decimal arithmetic. -/
def divisionByZeroMsg : String := "[<class 'decimal.DivisionByZero'>]"

/-- Message of an `Overflow` from decimal arithmetic. -/
def overflowMsg : String := "[<class 'decimal.Overflow'>]"

/-- Round `c` at `drop` trailing decimal digits with `ROUND_HALF_EVEN` (the
default context rounding): drop the digits, round up when the dropped part
exceeds half an ulp, and to the even neighbour on an exact tie. -/
def roundHalfEven (c : Nat) (drop : Nat) : Nat :=
  let p := 10 ^ drop
  let q := c / p
  let r := c % p
  if r = 0 then q
  else if p < 2 * r || (2 * r = p && q % 2 = 1) then q + 1 else q

/-- The `_fix` step of Python's `_pydecimal`: bring a raw result
`(-1)^s * c * 10^e` into the context, rounding the coefficient to `prec`
digits half-even, clamping a zero's exponent, flooring at `Etiny`
(subnormal results), and raising `Overflow` past `Etop`. -/
def Decimal.fix (s : Bool) (c : Nat) (e : Int) : Except PyExc Decimal :=
  if c = 0 then .ok (.finite s 0 (min (max e Etiny) Emax))
  else
    let expMin : Int := (numDigits c : Int) + e - prec
    if Etop < expMin then .error (.overflow overflowMsg)
    else
      let expMin2 := max expMin Etiny
      if e < expMin2 then
        let c2 := roundHalfEven c (expMin2 - e).toNat
        let c3 := if prec < numDigits c2 then c2 / 10 else c2
        let e3 := if prec < numDigits c2 then expMin2 + 1 else expMin2
        if Etop < e3 then .error (.overflow overflowMsg) else .ok (.finite s c3 e3)
      else .ok (.finite s c e)

/-- Python `Decimal.copy_negate`: flip the sign. -/
def Decimal.negate : Decimal → Decimal
  | .finite s c e => .finite (!s) c e
  | .inf s => .inf (!s)
  | .nan s sig p => .nan (!s) sig p

/-- Exact signed sum of two finite decimals with coefficients aligned to the
smaller exponent (`min e1 e2`), before any rounding. -/
def alignedSum (s1 : Bool) (c1 : Nat) (e1 : Int) (s2 : Bool) (c2 : Nat) (e2 : Int) : Int :=
  (if s1 then -(c1 : Int) else (c1 : Int)) * 10 ^ (e1 - min e1 e2).toNat +
  (if s2 then -(c2 : Int) else (c2 : Int)) * 10 ^ (e2 - min e1 e2).toNat

/-- Python `Decimal.__add__` under the default context: signaling NaNs raise
`InvalidOperation`, quiet NaNs propagate (first operand preferred), opposite
infinities raise, one infinity wins, and finite operands are summed exactly
then rounded by `fix`. A zero result from cancellation is `+0` unless both
operands were negative (`ROUND_HALF_EVEN` context). -/
def Decimal.add (a b : Decimal) : Except PyExc Decimal :=
  match a, b with
  | .nan _ true _, _ => .error (.invalidOperation invalidOperationMsg)
  | _, .nan _ true _ => .error (.invalidOperation invalidOperationMsg)
  | .nan s false p, _ => .ok (.nan s false p)
  | _, .nan s false p => .ok (.nan s false p)
  | .inf s1, .inf s2 =>
    if s1 = s2 then .ok (.inf s1) else .error (.invalidOperation invalidOperationMsg)
  | .inf s1, _ => .ok (.inf s1)
  | _, .inf s2 => .ok (.inf s2)
  | .finite s1 c1 e1, .finite s2 c2 e2 =>
    let S := alignedSum s1 c1 e1 s2 c2 e2
    Decimal.fix (if S = 0 then s1 && s2 else S < 0) S.natAbs (min e1 e2)

/-- Python `Decimal.__sub__`: after the NaN checks, add the negation. -/
def Decimal.sub (a b : Decimal) : Except PyExc Decimal :=
  match a, b with
  | .nan _ true _, _ => .error (.invalidOperation invalidOperationMsg)
  | _, .nan _ true _ => .error (.invalidOperation invalidOperationMsg)
  | .nan s false p, _ => .ok (.nan s false p)
  | _, .nan s false p => .ok (.nan s false p)
  | _, _ => Decimal.add a (Decimal.negate b)

/-- Python `Decimal.__mul__` under the default context: NaN handling as for
addition, `0 * Infinity` raises `InvalidOperation`, infinities multiply by
sign, and finite operands multiply exactly then round through `fix`. -/
def Decimal.mul (a b : Decimal) : Except PyExc Decimal :=
  match a, b with
  | .nan _ true _, _ => .error (.invalidOperation invalidOperationMsg)
  | _, .nan _ true _ => .error (.invalidOperation invalidOperationMsg)
  | .nan s false p, _ => .ok (.nan s false p)
  | _, .nan s false p => .ok (.nan s false p)
  | .inf s1, .inf s2 => .ok (.inf (s1 != s2))
  | .inf s1, .finite s2 c2 _ =>
    if c2 = 0 then .error (.invalidOperation invalidOperationMsg) else .ok (.inf (s1 != s2))
  | .finite s1 c1 _, .inf s2 =>
    if c1 = 0 then .error (.invalidOperation invalidOperationMsg) else .ok (.inf (s1 != s2))
  | .finite s1 c1 e1, .finite s2 c2 e2 => Decimal.fix (s1 != s2) (c1 * c2) (e1 + e2)

/-- The exponent-restoring loop of `_pydecimal.__truediv__`'s exact case:
`while exp < ideal_exp and coeff % 10 == 0`, with the iteration count
`ideal_exp - exp` supplied as fuel. -/
def stripLoop : Nat → Nat → Int → Nat × Int
  | 0, c, e => (c, e)
  | k + 1, c, e => if c % 10 = 0 then stripLoop k (c / 10) (e + 1) else (c, e)

/-- The headroom shift of `_pydecimal.__truediv__`:
`len(str(op2.int)) - len(str(op1.int)) + context.prec + 1`. -/
def divShift (c1 c2 : Nat) : Int := (numDigits c2 : Int) - numDigits c1 + prec + 1

/-- The dividend of the shifted integer division in `__truediv__`. -/
def divNum (c1 c2 : Nat) : Nat :=
  if 0 ≤ divShift c1 c2 then c1 * 10 ^ (divShift c1 c2).toNat else c1

/-- The divisor of the shifted integer division in `__truediv__`. -/
def divDen (c1 c2 : Nat) : Nat :=
  if 0 ≤ divShift c1 c2 then c2 else c2 * 10 ^ (-(divShift c1 c2)).toNat

/-- Python `Decimal.__truediv__` under the default context, following
`_pydecimal`: NaN handling as above, `Infinity / Infinity` and `0 / 0` raise
`InvalidOperation`, division by an infinity clamps to a zero at `Etiny`,
division by a zero raises `DivisionByZero`; otherwise the quotient coefficient
is computed with `prec + 1` digits of headroom (the `shift`), marked inexact
via the `% 5` trick when a remainder is left, or brought back toward the ideal
exponent `e1 - e2` when exact, and the result is rounded through `fix`. -/
def Decimal.div (a b : Decimal) : Except PyExc Decimal :=
  match a, b with
  | .nan _ true _, _ => .error (.invalidOperation invalidOperationMsg)
  | _, .nan _ true _ => .error (.invalidOperation invalidOperationMsg)
  | .nan s false p, _ => .ok (.nan s false p)
  | _, .nan s false p => .ok (.nan s false p)
  | .inf _, .inf _ => .error (.invalidOperation invalidOperationMsg)
  | .inf s1, .finite s2 _ _ => .ok (.inf (s1 != s2))
  | .finite s1 _ _, .inf s2 => .ok (.finite (s1 != s2) 0 Etiny)
  | .finite s1 c1 e1, .finite s2 c2 e2 =>
    if c2 = 0 then
      if c1 = 0 then .error (.invalidOperation divisionUndefinedMsg)
      else .error (.divisionByZero divisionByZeroMsg)
    else if c1 = 0 then Decimal.fix (s1 != s2) 0 (e1 - e2)
    else
      let coeff := divNum c1 c2 / divDen c1 c2
      if divNum c1 c2 % divDen c1 c2 ≠ 0 then
        Decimal.fix (s1 != s2) (if coeff % 5 = 0 then coeff + 1 else coeff)
          (e1 - e2 - divShift c1 c2)
      else
        let sl := stripLoop (divShift c1 c2).toNat coeff (e1 - e2 - divShift c1 c2)
        Decimal.fix (s1 != s2) sl.1 sl.2

/-- The digits of a signed integer with a mandatory sign, as Python's
`'%+d'` formatting used for exponents in `to_sci_string`. -/
def signedDigits (n : Int) : List Char :=
  (if n < 0 then '-' else '+') :: digitChars n.natAbs

/-- Python `str(Decimal)` (`to_sci_string` with capital `E`): positional
notation when the exponent is at most 0 and the adjusted exponent is above
-6, scientific notation otherwise; NaN payloads print after the `NaN`. -/
def Decimal.toString : Decimal → String
  | .inf s => if s then "-Infinity" else "Infinity"
  | .nan s sig p =>
    String.mk ((if s then ['-'] else []) ++ (if sig then "sNaN".data else "NaN".data) ++
      (if p = 0 then [] else digitChars p))
  | .finite s c e =>
    let ds := digitChars c
    let leftdigits : Int := e + ds.length
    let dotplace : Int := if e ≤ 0 && -6 < leftdigits then leftdigits else 1
    let intpart : List Char :=
      if dotplace ≤ 0 then ['0']
      else if (ds.length : Int) ≤ dotplace then ds ++ List.replicate (dotplace - ds.length).toNat '0'
      else ds.take dotplace.toNat
    let fracpart : List Char :=
      if dotplace ≤ 0 then '.' :: (List.replicate (-dotplace).toNat '0' ++ ds)
      else if (ds.length : Int) ≤ dotplace then []
      else '.' :: ds.drop dotplace.toNat
    let exppart : List Char :=
      if leftdigits = dotplace then [] else 'E' :: signedDigits (leftdigits - dotplace)
    String.mk ((if s then ['-'] else []) ++ intpart ++ fracpart ++ exppart)

/-- Python `num == 0` for a `Decimal` left operand: true exactly for finite
values with coefficient 0 (NaN comparisons are simply unequal). -/
def Decimal.isZero : Decimal → Bool
  | .finite _ c _ => c = 0
  | _ => false

/-- The message returned by `calculate` when the input does not split into
exactly three tokens. -/
def entryErrorMsg : String :=
  "Entry Error: Please enter the math problem in this format: (number operator number)"

/-- Lift a decimal operation's outcome to the `f"Result: {result}"` string,
propagating exceptions, as the assignment-then-return in `calculate`. -/
def opResult (r : Except PyExc Decimal) : Except PyExc String :=
  match r with
  | .ok d => .ok ("Result: " ++ Decimal.toString d)
  | .error e => .error e

/-- The body of the `try` block of `calculate` (lines 82-102 of the source):
split the expression, check for three tokens, convert both operands with
`Decimal(...)` (raising `InvalidOperation` on bad syntax), dispatch on the
operator with the zero check before division, and format the result.
Returned strings are normal returns; `.error` is a raised exception. -/
def calcBody (expression : String) : Except PyExc String :=
  match pySplit expression with
  | [num1, operator, num2] =>
    match Decimal.parse num1 with
    | none => .error (.invalidOperation conversionSyntaxMsg)
    | some d1 =>
      match Decimal.parse num2 with
      | none => .error (.invalidOperation conversionSyntaxMsg)
      | some d2 =>
        if operator = "+" then opResult (Decimal.add d1 d2)
        else if operator = "-" then opResult (Decimal.sub d1 d2)
        else if operator = "*" then opResult (Decimal.mul d1 d2)
        else if operator = "/" then
          if d2.isZero then .ok "Error: Cannot divide by zero."
          else opResult (Decimal.div d1 d2)
        else .ok ("Error: Unknown operator '" ++ operator ++ "'")
  | _ => .ok entryErrorMsg

/-- The `except` clauses of `calculate`: `ValueError` gets the fixed invalid
number message, anything else the generic `f"Error: {str(e)}"`. -/
def pyHandle (e : PyExc) : String :=
  match e with
  | .valueError _ => "Error: Invalid number format"
  | e => "Error: " ++ pyStr e

/-- The full `calculate` function of the source: the `try` body with its
exception handlers, a total function from input strings to output strings. -/
def calculate (expression : String) : String :=
  match calcBody expression with
  | .ok r => r
  | .error e => pyHandle e

/-- JSON escaping of one character with `ensure_ascii=True` (the default, as
in the size check `json.dumps(history, indent=2)`): quote, backslash and the
control shorthands, `\uXXXX` for the other controls and for everything past
`~` (astral code points become a surrogate pair). -/
def escChar (c : Char) : List Char :=
  if c = '"' then ['\\', '"']
  else if c = '\\' then ['\\', '\\']
  else if c = '\n' then ['\\', 'n']
  else if c = '\t' then ['\\', 't']
  else if c = '\r' then ['\\', 'r']
  else if c = '\x08' then ['\\', 'b']
  else if c = '\x0c' then ['\\', 'f']
  else if c.val < 0x20 || 0x7e < c.val then
    if c.val < 0x10000 then '\\' :: 'u' :: hex4 c.toNat
    else ('\\' :: 'u' :: hex4 (0xd800 + (c.toNat - 0x10000) / 0x400)) ++
         ('\\' :: 'u' :: hex4 (0xdc00 + (c.toNat - 0x10000) % 0x400))
  else [c]

/-- JSON escaping of a string with `ensure_ascii=True`. -/
def escape (l : List Char) : List Char := (l.map escChar).flatten

/-- JSON escaping of one character with `ensure_ascii=False` (as in the
`write_text` call): only quote, backslash and controls are escaped; all
other characters stay themselves. -/
def escRawChar (c : Char) : List Char :=
  if c = '"' then ['\\', '"']
  else if c = '\\' then ['\\', '\\']
  else if c = '\n' then ['\\', 'n']
  else if c = '\t' then ['\\', 't']
  else if c = '\r' then ['\\', 'r']
  else if c = '\x08' then ['\\', 'b']
  else if c = '\x0c' then ['\\', 'f']
  else if c.val < 0x20 then '\\' :: 'u' :: hex4 c.toNat
  else [c]

/-- JSON escaping of a string with `ensure_ascii=False`. -/
def escapeRaw (l : List Char) : List Char := (l.map escRawChar).flatten

/-- One record of the history file: timestamp (`datetime.now().isoformat()`),
content type tag and content, in the insertion order of the source's dict. -/
structure Entry where
  timestamp : String
  content_type : String
  content : String
deriving DecidableEq

/-- The `json.dumps(entry_dict, indent=2)` rendering of one history entry as
it appears inside the list (ASCII-escaped form used for the size check);
`\x7b`/`\x7d` are the literal braces. -/
def serEntry (e : Entry) : List Char :=
  "  \x7b\n    \"timestamp\": \"".data ++ escape e.timestamp.data ++
  "\",\n    \"content_type\": \"".data ++ escape e.content_type.data ++
  "\",\n    \"content\": \"".data ++ escape e.content.data ++ "\"\n  \x7d".data

/-- One history entry rendered with `ensure_ascii=False`, as written to disk. -/
def serEntryRaw (e : Entry) : List Char :=
  "  \x7b\n    \"timestamp\": \"".data ++ escapeRaw e.timestamp.data ++
  "\",\n    \"content_type\": \"".data ++ escapeRaw e.content_type.data ++
  "\",\n    \"content\": \"".data ++ escapeRaw e.content.data ++ "\"\n  \x7d".data

/-- `json.dumps(history, indent=2)`: the serialization whose UTF-8 byte count
the trimming loop of `manage_history` compares against `MAX_FILE_SIZE`. -/
def dumps : List Entry → List Char
  | [] => "[]".data
  | e :: rest => "[\n".data ++ List.intercalate ",\n".data ((e :: rest).map serEntry) ++ "\n]".data

/-- `json.dumps(history, indent=2, ensure_ascii=False)`: the serialization
actually written to the history file. -/
def dumpsRaw : List Entry → List Char
  | [] => "[]".data
  | e :: rest => "[\n".data ++ List.intercalate ",\n".data ((e :: rest).map serEntryRaw) ++ "\n]".data

/-- The 50 MiB ceiling on the serialized history, in bytes. -/
def MAX_FILE_SIZE : Nat := 50 * 1024 * 1024

/-- The `while` loop of `manage_history`: while the serialized size exceeds
`MAX_FILE_SIZE` and the list is non-empty, pop the oldest (front) entry. -/
def trimHistory : List Entry → List Entry
  | [] => []
  | e :: rest =>
    if MAX_FILE_SIZE < byteSize (dumps (e :: rest)) then trimHistory rest else e :: rest

/-- The program's observable environment: the parsed contents of the history
file (`none` = file does not exist), injectable read/write failures (the
message is the exception's `str`), and a timestamp oracle for
`datetime.now().isoformat()` driven by a tick counter. -/
structure World where
  file : Option (List Entry)
  readErr : Option String
  writeErr : Option String
  now : Nat → String
  tick : Nat

/-- The entry `manage_history` builds for the current call. -/
def newEntry (w : World) (content_type content : String) : Entry :=
  ⟨w.now w.tick, content_type, content⟩

/-- The body of the `try` block of `manage_history` (lines 45-63): read the
store (empty when the file is absent; a read failure raises), append the new
timestamped entry, trim from the front until the serialized size fits, and
write the store back (a write failure raises). The file contents are carried
in parsed form; `json.dumps`/`json.loads` round-trip the list. -/
def manageHistoryBody (w : World) (content_type content : String) :
    Except String (World × List Entry) :=
  match w.readErr with
  | some m => .error m
  | none =>
    let history := trimHistory ((w.file.getD []) ++ [newEntry w content_type content])
    match w.writeErr with
    | some m => .error m
    | none => .ok ({ w with file := some history, tick := w.tick + 1 }, history)

/-- The full `manage_history` with its `except Exception` clause: on any
storage error it prints `f"Error managing history file: {e}"` and returns
`[]`; otherwise it returns the updated history. Result: (world, printed
lines, returned list). -/
def manage_history (w : World) (content_type content : String) :
    World × List String × List Entry :=
  match manageHistoryBody w content_type content with
  | .ok (w2, h) => (w2, [], h)
  | .error m => (w, ["Error managing history file: " ++ m], [])

/-- ANSI bold escape, the source's `BOLD`. -/
def BOLD : String := "\x1b[1m"

/-- ANSI underline escape, the source's `UNDERLINE`. -/
def UNDERLINE : String := "\x1b[4m"

/-- ANSI reset escape, the source's `END`. -/
def END : String := "\x1b[0m"

/-- The instructions text printed and logged by `display_instructions`. -/
def instructionsText : String :=
  "\n" ++ BOLD ++ "===== Calculator Instructions =====" ++ END ++
  "\n\nEnter your calculation in the format:\n    " ++
  UNDERLINE ++ "number" ++ END ++ " " ++ UNDERLINE ++ "operator" ++ END ++ " " ++
  UNDERLINE ++ "number" ++ END ++
  "\n\nSupported operators: +, -, *, /\n\nExamples:\n    5 + 3\n    10.5 - 2.7" ++
  "\n    4 * 6\n    15 / 3\n\nType 'quit' to exit the calculator." ++
  "\nType 'help' to see these instructions again.\n\n" ++
  BOLD ++ "===================================" ++ END ++ "\n"

/-- `display_instructions`: print the instructions, then log them (with any
history error message printed after). -/
def display_instructions (w : World) : World × List String :=
  match manage_history w "INSTRUCTIONS" instructionsText with
  | (w2, errs, _) => (w2, instructionsText :: errs)

/-- The `input(...)` prompt of the main loop. -/
def promptText : String := "\n" ++ BOLD ++ "Enter a calculation (or 'quit' to exit): " ++ END

/-- The goodbye message printed on `quit`/`exit`. -/
def goodbyeText : String := BOLD ++ "Thank you for using the calculator. Goodbye!" ++ END

/-- The welcome message printed by `main`. -/
def welcomeText : String := BOLD ++ "Welcome to the Unlimited Precision Calculator!" ++ END

/-- The `while True` loop of `main` (lines 149-163), driven by the list of
lines standing on the input stream: prompt, read and normalize a line
(`.strip().lower()`), log it, then quit / redisplay help / calculate, logging
each step. Result: (world, printed lines, input lines left unread when the
loop stops). An exhausted input list just stops the loop. -/
def runLoop (w : World) : List String → World × List String × List String
  | [] => (w, [], [])
  | line :: rest =>
    let user_input := pyLower (String.mk (pyStrip line.data))
    match manage_history w "USER_INPUT" user_input with
    | (w1, errs1, _) =>
      if user_input = "quit" || user_input = "exit" then
        match manage_history w1 "END" "Closed calculator" with
        | (w2, errs2, _) => (w2, promptText :: errs1 ++ [goodbyeText] ++ errs2, rest)
      else if user_input = "help" then
        match display_instructions w1 with
        | (w2, outs2) =>
          match runLoop w2 rest with
          | (w3, outs3, leftover) => (w3, promptText :: errs1 ++ outs2 ++ outs3, leftover)
      else
        match manage_history w1 "CALCULATION" (user_input ++ " = " ++ calculate user_input) with
        | (w2, errs2, _) =>
          match runLoop w2 rest with
          | (w3, outs3, leftover) =>
            (w3, promptText :: errs1 ++ [calculate user_input] ++ errs2 ++ outs3, leftover)

/-- The whole `main`: welcome message, `START` log entry, instructions, then
the interactive loop. -/
def runMain (w : World) (inputs : List String) : World × List String × List String :=
  match manage_history w "START" "Started calculator" with
  | (w1, errs1, _) =>
    match display_instructions w1 with
    | (w2, outs2) =>
      match runLoop w2 inputs with
      | (w3, outs3, leftover) => (w3, welcomeText :: errs1 ++ outs2 ++ outs3, leftover)

lemma byteSize_append (a b : List Char) : byteSize (a ++ b) = byteSize a + byteSize b := by
  simp [byteSize]

lemma byteSize_dumps_nil_le : byteSize (dumps []) ≤ MAX_FILE_SIZE := by decide

/-- After the trimming loop the serialized size fits the ceiling. -/
lemma trimHistory_size_le (l : List Entry) :
    byteSize (dumps (trimHistory l)) ≤ MAX_FILE_SIZE := by
  induction l with
  | nil => exact byteSize_dumps_nil_le
  | cons e rest ih =>
    rw [trimHistory]
    split
    · exact ih
    · next h => exact Nat.le_of_not_lt h

/-- The trimming loop removes entries from the front only: its result is
`l.drop k` for the least `k` whose suffix fits (every longer suffix is over
the ceiling). -/
lemma trimHistory_drop (l : List Entry) :
    ∃ k, trimHistory l = l.drop k ∧
      (∀ j, j < k → MAX_FILE_SIZE < byteSize (dumps (l.drop j))) := by
  induction l with
  | nil => exact ⟨0, rfl, by omega⟩
  | cons e rest ih =>
    rw [trimHistory]
    split
    · next hover =>
      obtain ⟨k, hk, hmin⟩ := ih
      refine ⟨k + 1, by simpa using hk, ?_⟩
      intro j hj
      match j with
      | 0 => simpa using hover
      | j' + 1 => simpa using hmin j' (by omega)
    · exact ⟨0, rfl, by omega⟩

lemma utf8Len_le_four (c : Char) : utf8Len c ≤ 4 := by
  unfold utf8Len
  split_ifs <;> omega

lemma utf8Len_hexChar (n : Nat) : utf8Len (hexChar n) = 1 := by
  have h : n % 16 < 16 := Nat.mod_lt _ (by norm_num)
  have hall : ∀ m, m < 16 → utf8Len ("0123456789abcdef".data.getD m '0') = 1 := by decide
  exact hall _ h

lemma byteSize_uEscape (k : Nat) : byteSize ('\\' :: 'u' :: hex4 k) = 6 := by
  simp [byteSize, hex4, utf8Len_hexChar]
  decide

/-- Per character, the `ensure_ascii=False` rendering is never longer in
UTF-8 bytes than the `ensure_ascii=True` one. -/
lemma escRawChar_le (c : Char) : byteSize (escRawChar c) ≤ byteSize (escChar c) := by
  unfold escRawChar escChar
  split_ifs with h1 h2 h3 h4 h5 h6 h7 h8 h9 h10 h11
  · exact Nat.le_refl _
  · exact Nat.le_refl _
  · exact Nat.le_refl _
  · exact Nat.le_refl _
  · exact Nat.le_refl _
  · exact Nat.le_refl _
  · exact Nat.le_refl _
  · exact Nat.le_refl _
  · have h8n : c.val.toNat < 32 := h8
    have hlt : c.val.toNat < 65536 := by omega
    exact absurd hlt h10
  · exact (h9 (by simp [h8])).elim
  · rw [byteSize_uEscape]
    have := utf8Len_le_four c
    simp [byteSize]
    omega
  · rw [byteSize_append, byteSize_uEscape, byteSize_uEscape]
    have := utf8Len_le_four c
    simp [byteSize]
    omega
  · exact Nat.le_refl _

lemma escapeRaw_le (l : List Char) : byteSize (escapeRaw l) ≤ byteSize (escape l) := by
  induction l with
  | nil => simp [escape, escapeRaw, byteSize]
  | cons c rest ih =>
    simp only [escape, escapeRaw, List.map_cons, List.flatten_cons, byteSize_append]
    have := escRawChar_le c
    simp only [escape, escapeRaw] at ih
    omega

lemma serEntryRaw_le (e : Entry) : byteSize (serEntryRaw e) ≤ byteSize (serEntry e) := by
  unfold serEntry serEntryRaw
  simp only [byteSize_append]
  have h1 := escapeRaw_le e.timestamp.data
  have h2 := escapeRaw_le e.content_type.data
  have h3 := escapeRaw_le e.content.data
  omega

lemma intercalate_singleton (sep x : List Char) : List.intercalate sep [x] = x := by
  simp [List.intercalate]

lemma intercalate_cons_cons (sep a b : List Char) (t : List (List Char)) :
    List.intercalate sep (a :: b :: t) = a ++ sep ++ List.intercalate sep (b :: t) := by
  simp [List.intercalate, List.intersperse, List.append_assoc]

/-- The on-disk (`ensure_ascii=False`) serialization is never larger than the
ASCII-escaped serialization whose size the trimming loop checks. -/
lemma dumpsRaw_le (h : List Entry) : byteSize (dumpsRaw h) ≤ byteSize (dumps h) := by
  have key : ∀ (t : List Entry) (sep a b : List Char), byteSize a ≤ byteSize b →
      byteSize (List.intercalate sep (a :: t.map serEntryRaw)) ≤
      byteSize (List.intercalate sep (b :: t.map serEntry)) := by
    intro t
    induction t with
    | nil => intro sep a b hab; simpa [intercalate_singleton] using hab
    | cons e2 t2 ih =>
      intro sep a b hab
      simp only [List.map_cons, intercalate_cons_cons, byteSize_append]
      have := ih sep (serEntryRaw e2) (serEntry e2) (serEntryRaw_le e2)
      simp only [List.map_cons, intercalate_cons_cons, byteSize_append] at this
      omega
  match h with
  | [] => exact Nat.le_refl _
  | e :: rest =>
    rw [dumps, dumpsRaw]
    simp only [List.map_cons, byteSize_append]
    have := key rest ",\n".data (serEntryRaw e) (serEntry e) (serEntryRaw_le e)
    simp only [List.map_cons, byteSize_append] at this
    omega

/-- C1: after every append performed by `manage_history` whose storage reads
and writes succeed, the store that was persisted is exactly the trimmed list,
and both its size-checked (`ensure_ascii=True`) and its on-disk
(`ensure_ascii=False`) serializations are at most `MAX_FILE_SIZE` = 50 MiB;
the trimming loop `trimHistory` removes oldest entries from the front one at
a time (and may empty the store) until the bound holds. -/
theorem manage_history_size_invariant
    (w : World) (content_type content : String) (w2 : World) (h : List Entry)
    (hok : manageHistoryBody w content_type content = .ok (w2, h)) :
    h = trimHistory (w.file.getD [] ++ [newEntry w content_type content]) ∧
    w2.file = some h ∧
    byteSize (dumps h) ≤ MAX_FILE_SIZE ∧ byteSize (dumpsRaw h) ≤ MAX_FILE_SIZE := by
  unfold manageHistoryBody at hok
  cases hre : w.readErr with
  | some m => rw [hre] at hok; simp at hok
  | none =>
    rw [hre] at hok
    cases hwe : w.writeErr with
    | some m => rw [hwe] at hok; simp at hok
    | none =>
      rw [hwe] at hok
      simp only [Except.ok.injEq, Prod.mk.injEq] at hok
      obtain ⟨hw2, hh⟩ := hok
      subst hh
      refine ⟨rfl, ?_, trimHistory_size_le _, Nat.le_trans (dumpsRaw_le _) (trimHistory_size_le _)⟩
      rw [← hw2]

/-- C2: the store left by a successful `manage_history` append is a
contiguous suffix of the old entries followed by the new one — it retains the
longest suffix whose serialized size fits the ceiling (dropping `k` oldest
entries, with every smaller `j` leaving an oversized store), preserving the
original relative order. -/
theorem manage_history_keeps_newest_suffix
    (w : World) (content_type content : String) (w2 : World) (h : List Entry)
    (hok : manageHistoryBody w content_type content = .ok (w2, h)) :
    ∃ k, h = (w.file.getD [] ++ [newEntry w content_type content]).drop k ∧
      byteSize (dumps h) ≤ MAX_FILE_SIZE ∧
      ∀ j, j < k →
        MAX_FILE_SIZE <
          byteSize (dumps ((w.file.getD [] ++ [newEntry w content_type content]).drop j)) := by
  unfold manageHistoryBody at hok
  cases hre : w.readErr with
  | some m => rw [hre] at hok; simp at hok
  | none =>
    rw [hre] at hok
    cases hwe : w.writeErr with
    | some m => rw [hwe] at hok; simp at hok
    | none =>
      rw [hwe] at hok
      simp only [Except.ok.injEq, Prod.mk.injEq] at hok
      obtain ⟨hw2, hh⟩ := hok
      subst hh
      obtain ⟨k, hk, hmin⟩ := trimHistory_drop (w.file.getD [] ++ [newEntry w content_type content])
      exact ⟨k, hk, trimHistory_size_le _, hmin⟩

/-- A concrete storage environment whose reads and writes succeed. -/
def wOk : World := ⟨some [], none, none, fun _ => "2024-09-15T12:00:00", 0⟩

/-- The entry `wOk`'s append produces. -/
def entOk : Entry := ⟨"2024-09-15T12:00:00", "USER_INPUT", "5 + 3"⟩

/-- The environment after the append of `entOk`. -/
def wOk2 : World := ⟨some [entOk], none, none, fun _ => "2024-09-15T12:00:00", 1⟩

theorem manage_history_size_invariant_witness :
    [entOk] = trimHistory (wOk.file.getD [] ++ [newEntry wOk "USER_INPUT" "5 + 3"]) ∧
    wOk2.file = some [entOk] ∧
    byteSize (dumps [entOk]) ≤ MAX_FILE_SIZE ∧ byteSize (dumpsRaw [entOk]) ≤ MAX_FILE_SIZE :=
  manage_history_size_invariant wOk "USER_INPUT" "5 + 3" wOk2 [entOk] (by rfl)

/-- A concrete environment with no history file yet. -/
def wC2 : World := ⟨none, none, none, fun _ => "2024-09-15T12:00:01", 0⟩

/-- The entry `wC2`'s append produces. -/
def entC2 : Entry := ⟨"2024-09-15T12:00:01", "CALCULATION", "10.5 - 2.7 = Result: 7.8"⟩

/-- The environment after the append of `entC2`. -/
def wC2b : World := ⟨some [entC2], none, none, fun _ => "2024-09-15T12:00:01", 1⟩

theorem manage_history_keeps_newest_suffix_witness :
    ∃ k, [entC2] = (wC2.file.getD [] ++ [newEntry wC2 "CALCULATION" "10.5 - 2.7 = Result: 7.8"]).drop k ∧
      byteSize (dumps [entC2]) ≤ MAX_FILE_SIZE ∧
      ∀ j, j < k →
        MAX_FILE_SIZE <
          byteSize (dumps ((wC2.file.getD [] ++
            [newEntry wC2 "CALCULATION" "10.5 - 2.7 = Result: 7.8"]).drop j)) :=
  manage_history_keeps_newest_suffix wC2 "CALCULATION" "10.5 - 2.7 = Result: 7.8" wC2b [entC2] (by rfl)

lemma escChar_a : escChar 'a' = ['a'] := by decide

lemma escape_replicate_a (n : Nat) : escape (List.replicate n 'a') = List.replicate n 'a' := by
  induction n with
  | zero => rfl
  | succ n ih =>
    rw [List.replicate_succ]
    simp only [escape, List.map_cons, List.flatten_cons] at ih ⊢
    rw [escChar_a, ih]
    rfl

lemma byteSize_replicate_a (n : Nat) : byteSize (List.replicate n 'a') = n := by
  have h1 : utf8Len 'a' = 1 := by decide
  simp [byteSize, List.map_replicate, List.sum_replicate, smul_eq_mul, h1]

lemma manageHistoryBody_ok (w : World) (hr : w.readErr = none) (hw : w.writeErr = none)
    (content_type content : String) :
    manageHistoryBody w content_type content =
      .ok ({ w with
              file := some (trimHistory (w.file.getD [] ++ [newEntry w content_type content])),
              tick := w.tick + 1 },
           trimHistory (w.file.getD [] ++ [newEntry w content_type content])) := by
  unfold manageHistoryBody
  rw [hr, hw]

lemma trimHistory_single_fits (e : Entry) (h : byteSize (dumps [e]) ≤ MAX_FILE_SIZE) :
    trimHistory [e] = [e] := by
  rw [trimHistory, if_neg (by omega)]

/-- C9 (amended): appending to an empty or nonexistent store leaves exactly
the one new entry, provided that entry's one-element serialization fits
the 50 MiB ceiling. -/
theorem manage_history_empty_store_single_entry
    (w : World) (content_type content : String) (w2 : World) (h : List Entry)
    (hempty : w.file.getD [] = [])
    (hfits : byteSize (dumps [newEntry w content_type content]) ≤ MAX_FILE_SIZE)
    (hok : manageHistoryBody w content_type content = .ok (w2, h)) :
    h = [newEntry w content_type content] ∧ w2.file = some h := by
  rw [manageHistoryBody_ok w (by cases hre : w.readErr with
        | none => rfl
        | some m => rw [manageHistoryBody] at hok; rw [hre] at hok; simp at hok)
      (by cases hwe : w.writeErr with
        | none => rfl
        | some m =>
          rw [manageHistoryBody] at hok
          cases hre : w.readErr with
          | some m2 => rw [hre] at hok; simp at hok
          | none => rw [hre, hwe] at hok; simp at hok)] at hok
  rw [hempty] at hok
  simp only [List.nil_append] at hok
  rw [trimHistory_single_fits _ hfits] at hok
  simp only [Except.ok.injEq, Prod.mk.injEq] at hok
  obtain ⟨hw2, hh⟩ := hok
  subst hh
  exact ⟨rfl, by rw [← hw2]⟩

/-- A fresh environment for the single-append witness. -/
def wC9 : World := ⟨none, none, none, fun _ => "2024-09-15T12:00:03", 0⟩

/-- The environment `wC9` after logging the session start. -/
def wC9b : World :=
  ⟨some [⟨"2024-09-15T12:00:03", "START", "Started calculator"⟩], none, none,
   fun _ => "2024-09-15T12:00:03", 1⟩

theorem manage_history_empty_store_single_entry_witness :
    [(⟨"2024-09-15T12:00:03", "START", "Started calculator"⟩ : Entry)] =
      [newEntry wC9 "START" "Started calculator"] ∧
    wC9b.file = some [(⟨"2024-09-15T12:00:03", "START", "Started calculator"⟩ : Entry)] :=
  manage_history_empty_store_single_entry wC9 "START" "Started calculator" wC9b
    [⟨"2024-09-15T12:00:03", "START", "Started calculator"⟩] rfl (by decide) (by rfl)

/-- A content string of 52428800 `a`s: its entry alone overflows the ceiling. -/
def bigStr : String := String.mk (List.replicate MAX_FILE_SIZE 'a')

/-- The oversized entry built from `bigStr`. -/
def bigEntry : Entry := ⟨"2024-09-15T12:00:02", "USER_INPUT", bigStr⟩

/-- The fresh environment receiving the oversized append. -/
def wBig : World := ⟨none, none, none, fun _ => "2024-09-15T12:00:02", 0⟩

/-- The environment after the oversized append: the store exists but is empty. -/
def wBig2 : World := ⟨some [], none, none, fun _ => "2024-09-15T12:00:02", 1⟩

lemma bigEntry_oversize : MAX_FILE_SIZE < byteSize (dumps [bigEntry]) := by
  rw [dumps]
  simp only [List.map_cons, List.map_nil]
  rw [intercalate_singleton, byteSize_append, byteSize_append]
  rw [serEntry]
  rw [byteSize_append, byteSize_append, byteSize_append, byteSize_append, byteSize_append]
  have hbig : byteSize (escape bigEntry.content.data) = MAX_FILE_SIZE := by
    have hdata : bigEntry.content.data = List.replicate MAX_FILE_SIZE 'a' := rfl
    rw [hdata, escape_replicate_a, byteSize_replicate_a]
  have hpos : 0 < byteSize ['[', '\n'] := by decide
  rw [hbig]
  omega

lemma trimHistory_bigEntry : trimHistory [bigEntry] = [] := by
  rw [trimHistory, if_pos bigEntry_oversize]
  rfl

/-- C9 counterexample: appending the single oversized entry `bigEntry` to an
empty store leaves the store existing but empty — zero entries, not one. The
whole call succeeds (no message printed, empty list returned). -/
theorem manage_history_big_entry_empties_store :
    manage_history wBig "USER_INPUT" bigStr = (wBig2, [], []) ∧ wBig2.file = some [] := by
  have htrim : trimHistory (wBig.file.getD [] ++ [newEntry wBig "USER_INPUT" bigStr]) = [] := by
    have harg : wBig.file.getD [] ++ [newEntry wBig "USER_INPUT" bigStr] = [bigEntry] := rfl
    rw [harg, trimHistory_bigEntry]
  have hbody := manageHistoryBody_ok wBig rfl rfl "USER_INPUT" bigStr
  rw [htrim] at hbody
  refine ⟨?_, rfl⟩
  rw [manage_history, hbody]
  rfl

/-- How far the session loop reads its input is independent of the storage
environment: every branch decision depends only on the normalized input line,
and `manage_history` never lets a storage exception escape. -/
lemma runLoop_leftover (inputs : List String) :
    ∀ w w' : World, (runLoop w inputs).2.2 = (runLoop w' inputs).2.2 := by
  induction inputs with
  | nil => intro w w'; rfl
  | cons line rest ih =>
    intro w w'
    simp only [runLoop]
    cases hcond : (decide (pyLower (String.mk (pyStrip line.data)) = "quit") ||
        decide (pyLower (String.mk (pyStrip line.data)) = "exit")) with
    | true => simp [hcond]
    | false =>
      simp only [hcond, Bool.false_eq_true, if_false]
      by_cases hhelp : pyLower (String.mk (pyStrip line.data)) = "help"
      · simp only [if_pos hhelp]
        exact ih _ _
      · simp only [if_neg hhelp]
        exact ih _ _

/-- C4: every storage error raised inside `manage_history` is caught there —
the call returns normally with the error reported as a printed message and
`[]` returned — and the session loop's input consumption is the same in every
storage environment, in particular the same as with error-free storage: an
append failure never interrupts the session. -/
theorem manage_history_error_contained :
    (∀ (w : World) (content_type content m : String),
        manageHistoryBody w content_type content = .error m →
        manage_history w content_type content =
          (w, ["Error managing history file: " ++ m], [])) ∧
    (∀ (inputs : List String) (w w' : World),
        (runLoop w inputs).2.2 = (runLoop w' inputs).2.2) := by
  constructor
  · intro w content_type content m herr
    rw [manage_history, herr]
  · intro inputs w w'
    exact runLoop_leftover inputs w w'

/-- A storage environment whose reads fail. -/
def wBad : World :=
  ⟨some [], some "[Errno 5] Input/output error", none, fun _ => "2024-09-15T12:00:04", 0⟩

theorem manage_history_error_contained_witness :
    manage_history wBad "USER_INPUT" "2 + 2" =
      (wBad, ["Error managing history file: [Errno 5] Input/output error"], []) ∧
    (runLoop wBad ["1 + 1", "quit", "after"]).2.2 =
      (runLoop wOk ["1 + 1", "quit", "after"]).2.2 :=
  ⟨manage_history_error_contained.1 wBad "USER_INPUT" "2 + 2"
      "[Errno 5] Input/output error" rfl,
   manage_history_error_contained.2 ["1 + 1", "quit", "after"] wBad wOk⟩

/-- C7: whenever the input does not split on whitespace into exactly three
tokens, `calculate` returns the malformed-input ("Entry Error") message. -/
theorem calculate_malformed_input (s : String) (h : (pySplit s).length ≠ 3) :
    calculate s = entryErrorMsg := by
  unfold calculate calcBody
  rcases hsplit : pySplit s with _ | ⟨a, _ | ⟨b, _ | ⟨c, _ | ⟨d, t⟩⟩⟩⟩
  · rfl
  · rfl
  · rfl
  · rw [hsplit] at h; simp at h
  · rfl

theorem calculate_malformed_input_witness :
    ((pySplit "5 + ").length ≠ 3 ∧ calculate "5 + " = entryErrorMsg) ∧
    ((pySplit "5+3").length ≠ 3 ∧ calculate "5+3" = entryErrorMsg) :=
  ⟨⟨by decide, calculate_malformed_input "5 + " (by decide)⟩,
   ⟨by decide, calculate_malformed_input "5+3" (by decide)⟩⟩

/-- C8: a three-token input whose operands both parse as decimals but whose
operator is none of `+ - * /` yields the unknown-operator message carrying
the offending token. -/
theorem calculate_unknown_operator (s n1 op n2 : String) (d1 d2 : Decimal)
    (hsplit : pySplit s = [n1, op, n2])
    (h1 : Decimal.parse n1 = some d1) (h2 : Decimal.parse n2 = some d2)
    (ha : op ≠ "+") (hb : op ≠ "-") (hc : op ≠ "*") (hd : op ≠ "/") :
    calculate s = "Error: Unknown operator '" ++ op ++ "'" := by
  simp only [calculate, calcBody, hsplit, h1, h2, if_neg ha, if_neg hb, if_neg hc, if_neg hd]

theorem calculate_unknown_operator_witness :
    pySplit "5 $ 3" = ["5", "$", "3"] ∧
    calculate "5 $ 3" = "Error: Unknown operator '$'" := by
  refine ⟨by decide, ?_⟩
  rw [calculate_unknown_operator "5 $ 3" "5" "$" "3" (.finite false 5 0) (.finite false 3 0)
    (by decide) (by decide) (by decide) (by decide) (by decide) (by decide) (by decide)]
  decide

lemma string_append_assoc (a b c : String) : a ++ b ++ c = a ++ (b ++ c) := by
  cases a; cases b; cases c
  exact congrArg String.mk (List.append_assoc _ _ _)

/-- Every normal return of the `try` body is the malformed-input message, a
`Result: ` line, or an `Error: ` line. -/
lemma calcBody_ok_shape (s v : String) (hok : calcBody s = .ok v) :
    v = entryErrorMsg ∨ (∃ t, v = "Result: " ++ t) ∨ (∃ t, v = "Error: " ++ t) := by
  unfold calcBody at hok
  rcases hsplit : pySplit s with _ | ⟨n1, _ | ⟨op, _ | ⟨n2, _ | ⟨d, t⟩⟩⟩⟩ <;>
    rw [hsplit] at hok <;> dsimp only at hok
  · exact Or.inl (Except.ok.inj hok).symm
  · exact Or.inl (Except.ok.inj hok).symm
  · exact Or.inl (Except.ok.inj hok).symm
  · cases hp1 : Decimal.parse n1 with
    | none => rw [hp1] at hok; simp at hok
    | some d1 =>
      rw [hp1] at hok
      dsimp only at hok
      cases hp2 : Decimal.parse n2 with
      | none => rw [hp2] at hok; simp at hok
      | some d2 =>
        rw [hp2] at hok
        dsimp only at hok
        split_ifs at hok with h1 h2 h3 h4 h5
        · cases hr : Decimal.add d1 d2 with
          | ok r =>
            rw [hr] at hok; dsimp only [opResult] at hok
            exact Or.inr (Or.inl ⟨Decimal.toString r, (Except.ok.inj hok).symm⟩)
          | error e => rw [hr] at hok; dsimp only [opResult] at hok; simp at hok
        · cases hr : Decimal.sub d1 d2 with
          | ok r =>
            rw [hr] at hok; dsimp only [opResult] at hok
            exact Or.inr (Or.inl ⟨Decimal.toString r, (Except.ok.inj hok).symm⟩)
          | error e => rw [hr] at hok; dsimp only [opResult] at hok; simp at hok
        · cases hr : Decimal.mul d1 d2 with
          | ok r =>
            rw [hr] at hok; dsimp only [opResult] at hok
            exact Or.inr (Or.inl ⟨Decimal.toString r, (Except.ok.inj hok).symm⟩)
          | error e => rw [hr] at hok; dsimp only [opResult] at hok; simp at hok
        · refine Or.inr (Or.inr ⟨"Cannot divide by zero.", ?_⟩)
          rw [← (Except.ok.inj hok)]
          decide
        · cases hr : Decimal.div d1 d2 with
          | ok r =>
            rw [hr] at hok; dsimp only [opResult] at hok
            exact Or.inr (Or.inl ⟨Decimal.toString r, (Except.ok.inj hok).symm⟩)
          | error e => rw [hr] at hok; dsimp only [opResult] at hok; simp at hok
        · refine Or.inr (Or.inr ⟨"Unknown operator '" ++ op ++ "'", ?_⟩)
          rw [← (Except.ok.inj hok)]
          rw [show ("Error: Unknown operator '" : String) = "Error: " ++ "Unknown operator '" by decide]
          rw [string_append_assoc, string_append_assoc,
            ← string_append_assoc "Unknown operator '" op "'"]
  · exact Or.inl (Except.ok.inj hok).symm

/-- C10: `calculate` is a total function on strings. Its `try` body either
returns normally (and `calculate` passes the string through) or raises, and
every raised exception is absorbed by the `except` clauses and rendered by
`pyHandle`; each output is the malformed-input message, a `Result: ` line, or
an `Error: ` line — no input makes `calculate` raise. -/
theorem calculate_is_total (s : String) :
    ((∃ v, calcBody s = .ok v ∧ calculate s = v) ∨
     (∃ e, calcBody s = .error e ∧ calculate s = pyHandle e)) ∧
    (calculate s = entryErrorMsg ∨ (∃ t, calculate s = "Result: " ++ t) ∨
     (∃ t, calculate s = "Error: " ++ t)) := by
  cases hb : calcBody s with
  | ok v =>
    have hc : calculate s = v := by rw [calculate, hb]
    refine ⟨Or.inl ⟨v, rfl, hc⟩, ?_⟩
    rcases calcBody_ok_shape s v hb with h | ⟨t, ht⟩ | ⟨t, ht⟩
    · exact Or.inl (hc.trans h)
    · exact Or.inr (Or.inl ⟨t, hc.trans ht⟩)
    · exact Or.inr (Or.inr ⟨t, hc.trans ht⟩)
  | error e =>
    have hc : calculate s = pyHandle e := by rw [calculate, hb]
    refine ⟨Or.inr ⟨e, rfl, hc⟩, Or.inr (Or.inr ?_)⟩
    cases e with
    | valueError m => exact ⟨"Invalid number format", by rw [hc]; rfl⟩
    | invalidOperation m => exact ⟨pyStr (.invalidOperation m), by rw [hc]; rfl⟩
    | divisionByZero m => exact ⟨pyStr (.divisionByZero m), by rw [hc]; rfl⟩
    | overflow m => exact ⟨pyStr (.overflow m), by rw [hc]; rfl⟩

lemma fix_not_valueError (sg : Bool) (c : Nat) (e : Int) (m : String) :
    Decimal.fix sg c e ≠ .error (.valueError m) := by
  simp only [Decimal.fix]
  split_ifs <;> simp

lemma add_not_valueError (a b : Decimal) (m : String) :
    Decimal.add a b ≠ .error (.valueError m) := by
  rcases a with ⟨s1, c1, e1⟩ | s1 | ⟨s1, b1, p1⟩ <;>
    rcases b with ⟨s2, c2, e2⟩ | s2 | ⟨s2, b2, p2⟩ <;>
    (try cases b1) <;> (try cases b2) <;>
    simp only [Decimal.add] <;>
    first
      | exact fix_not_valueError _ _ _ _
      | (split_ifs <;> simp)
      | simp

lemma sub_not_valueError (a b : Decimal) (m : String) :
    Decimal.sub a b ≠ .error (.valueError m) := by
  rcases a with ⟨s1, c1, e1⟩ | s1 | ⟨s1, b1, p1⟩ <;>
    rcases b with ⟨s2, c2, e2⟩ | s2 | ⟨s2, b2, p2⟩ <;>
    (try cases b1) <;> (try cases b2) <;>
    simp only [Decimal.sub] <;>
    first
      | exact add_not_valueError _ _ _
      | simp

lemma mul_not_valueError (a b : Decimal) (m : String) :
    Decimal.mul a b ≠ .error (.valueError m) := by
  rcases a with ⟨s1, c1, e1⟩ | s1 | ⟨s1, b1, p1⟩ <;>
    rcases b with ⟨s2, c2, e2⟩ | s2 | ⟨s2, b2, p2⟩ <;>
    (try cases b1) <;> (try cases b2) <;>
    simp only [Decimal.mul] <;>
    first
      | exact fix_not_valueError _ _ _ _
      | (split_ifs <;> simp)
      | simp

lemma div_not_valueError (a b : Decimal) (m : String) :
    Decimal.div a b ≠ .error (.valueError m) := by
  rcases a with ⟨s1, c1, e1⟩ | s1 | ⟨s1, b1, p1⟩ <;>
    rcases b with ⟨s2, c2, e2⟩ | s2 | ⟨s2, b2, p2⟩ <;>
    (try cases b1) <;> (try cases b2) <;>
    simp only [Decimal.div] <;>
    first
      | exact fix_not_valueError _ _ _ _
      | (split_ifs <;> first | exact fix_not_valueError _ _ _ _ | simp)
      | simp

lemma opResult_not_valueError (r : Except PyExc Decimal)
    (h : ∀ m, r ≠ .error (.valueError m)) (m : String) :
    opResult r ≠ .error (.valueError m) := by
  cases r with
  | ok d => simp [opResult]
  | error e =>
    simp only [opResult]
    intro hc
    exact h m (by rw [Except.error.inj hc])

/-- C6 (code bug): on an unparseable operand, `Decimal` raises
`decimal.InvalidOperation` — an `ArithmeticError`, not a `ValueError` — so
the `except ValueError` branch of `calculate` can never fire: no execution of
the `try` body raises a `ValueError`, and `"a + 3"` lands in the generic
`except Exception` handler instead of producing the intended
`"Error: Invalid number format"` message. -/
theorem calculate_invalid_number_dead_branch :
    calculate "a + 3" = "Error: [<class 'decimal.ConversionSyntax'>]" ∧
    calculate "a + 3" ≠ "Error: Invalid number format" ∧
    (∀ s m : String, calcBody s ≠ .error (.valueError m)) := by
  refine ⟨by decide, by decide, ?_⟩
  intro s m
  unfold calcBody
  rcases pySplit s with _ | ⟨n1, _ | ⟨op, _ | ⟨n2, _ | ⟨d, t⟩⟩⟩⟩ <;> dsimp only
  · simp
  · simp
  · simp
  · cases Decimal.parse n1 with
    | none => simp
    | some d1 =>
      dsimp only
      cases Decimal.parse n2 with
      | none => simp
      | some d2 =>
        dsimp only
        split_ifs
        · exact opResult_not_valueError _ (add_not_valueError d1 d2) m
        · exact opResult_not_valueError _ (sub_not_valueError d1 d2) m
        · exact opResult_not_valueError _ (mul_not_valueError d1 d2) m
        · simp
        · exact opResult_not_valueError _ (div_not_valueError d1 d2) m
        · simp
  · simp

lemma string_data_append (a b : String) : (a ++ b).data = a.data ++ b.data := by
  cases a; cases b; rfl

lemma result_ne_divzero_msg (t : String) :
    "Result: " ++ t ≠ "Error: Cannot divide by zero." := by
  intro h
  have hd := congrArg String.data h
  rw [string_data_append] at hd
  simp at hd

lemma fix_error_shape (sg : Bool) (c : Nat) (e : Int) (x : PyExc)
    (h : Decimal.fix sg c e = .error x) : x = .overflow overflowMsg := by
  simp only [Decimal.fix] at h
  split_ifs at h <;> first | (exact (Except.error.inj h).symm) | simp at h

lemma div_finite_error_shape (s1 : Bool) (c1 : Nat) (e1 : Int) (s2 : Bool) (c2 : Nat) (e2 : Int)
    (hz : c2 ≠ 0) (x : PyExc)
    (h : Decimal.div (.finite s1 c1 e1) (.finite s2 c2 e2) = .error x) :
    x = .overflow overflowMsg := by
  simp only [Decimal.div] at h
  rw [if_neg hz] at h
  by_cases hc1 : c1 = 0
  · rw [if_pos hc1] at h
    exact fix_error_shape _ _ _ _ h
  · rw [if_neg hc1] at h
    split_ifs at h <;> exact fix_error_shape _ _ _ _ h

/-- C5 counterexample: with nonzero divisor `1e-999999` the division
`1e999999 / 1e-999999` does not return a quotient — its result exceeds the
context's exponent range, so the trapped `decimal.Overflow` signal surfaces
and `calculate` renders the generic error message instead. -/
theorem calculate_division_overflow_counterexample :
    Decimal.parse "1e-999999" = some (.finite false 1 (-999999)) ∧
    Decimal.isZero (.finite false 1 (-999999)) = false ∧
    Decimal.div (.finite false 1 999999) (.finite false 1 (-999999)) =
      .error (.overflow overflowMsg) ∧
    calculate "1e999999 / 1e-999999" = "Error: [<class 'decimal.Overflow'>]" := by
  refine ⟨by decide, by decide, by rfl, by decide⟩

/-- C5 (amended): for a three-token `/` input with finite decimal operands,
`calculate` reports division by zero exactly when the second operand's
coefficient is zero (i.e. the operand equals zero, `-0` and `0E±n`
included); otherwise, whenever the decimal division returns a quotient
(which it does unless the quotient overflows the context's exponent range,
as in the counterexample), that quotient is the result. -/
theorem calculate_division_by_zero (s n1 n2 : String) (s1 s2 : Bool)
    (c1 c2 : Nat) (e1 e2 : Int)
    (hsplit : pySplit s = [n1, "/", n2])
    (h1 : Decimal.parse n1 = some (.finite s1 c1 e1))
    (h2 : Decimal.parse n2 = some (.finite s2 c2 e2)) :
    (calculate s = "Error: Cannot divide by zero." ↔ c2 = 0) ∧
    (∀ r, c2 ≠ 0 → Decimal.div (.finite s1 c1 e1) (.finite s2 c2 e2) = .ok r →
      calculate s = "Result: " ++ Decimal.toString r) := by
  have hbase : calcBody s =
      (if (Decimal.finite s2 c2 e2).isZero then Except.ok "Error: Cannot divide by zero."
       else opResult (Decimal.div (.finite s1 c1 e1) (.finite s2 c2 e2))) := by
    unfold calcBody
    rw [hsplit]
    dsimp only
    rw [h1]
    dsimp only
    rw [h2]
    dsimp only
    rw [if_neg (by decide : ¬("/" : String) = "+"), if_neg (by decide : ¬("/" : String) = "-"),
      if_neg (by decide : ¬("/" : String) = "*"), if_pos (rfl : ("/" : String) = "/")]
  by_cases hz : c2 = 0
  · have hzero : (Decimal.finite s2 c2 e2).isZero = true := by simp [Decimal.isZero, hz]
    have hcalc : calculate s = "Error: Cannot divide by zero." := by
      rw [calculate, hbase, if_pos hzero]
    exact ⟨⟨fun _ => hz, fun _ => hcalc⟩, fun r hne _ => absurd hz hne⟩
  · have hzero : ¬ (Decimal.finite s2 c2 e2).isZero = true := by simp [Decimal.isZero, hz]
    have hcalc : calculate s =
        (match Decimal.div (.finite s1 c1 e1) (.finite s2 c2 e2) with
          | .ok r => "Result: " ++ Decimal.toString r
          | .error e => pyHandle e) := by
      rw [calculate, hbase, if_neg hzero]
      cases Decimal.div (.finite s1 c1 e1) (.finite s2 c2 e2) with
      | ok r => rfl
      | error e => rfl
    constructor
    · constructor
      · intro hmsg
        cases hr : Decimal.div (.finite s1 c1 e1) (.finite s2 c2 e2) with
        | ok r =>
          rw [hr] at hcalc
          exact absurd (hcalc.symm.trans hmsg) (result_ne_divzero_msg _)
        | error e =>
          rw [div_finite_error_shape s1 c1 e1 s2 c2 e2 hz e hr] at hr
          rw [hr] at hcalc
          rw [hcalc] at hmsg
          exact absurd hmsg (by decide)
      · intro hz2; exact absurd hz2 hz
    · intro r hne hr
      rw [hr] at hcalc
      exact hcalc

theorem calculate_division_by_zero_witness :
    ((calculate "15 / 3" = "Error: Cannot divide by zero." ↔ (3 : Nat) = 0) ∧
     (∀ r, (3 : Nat) ≠ 0 →
        Decimal.div (.finite false 15 0) (.finite false 3 0) = .ok r →
        calculate "15 / 3" = "Result: " ++ Decimal.toString r)) ∧
    calculate "15 / 3" = "Result: 5" ∧
    calculate "5 / 0" = "Error: Cannot divide by zero." :=
  ⟨calculate_division_by_zero "15 / 3" "15" "3" false false 15 3 0 0
      (by decide) (by decide) (by decide),
   by decide, by decide⟩

lemma digitsAux_len : ∀ fuel n : Nat, 0 < fuel → n < 10 ^ fuel →
    (digitsAux fuel n).length = Nat.log 10 n + 1 := by
  intro fuel
  induction fuel with
  | zero => intro n h; omega
  | succ f ih =>
    intro n _ hlt
    rw [digitsAux]
    by_cases h10 : n < 10
    · rw [if_pos h10]
      have : Nat.log 10 n = 0 := Nat.log_eq_zero_iff.mpr (Or.inl h10)
      simp [this]
    · rw [if_neg h10]
      rw [List.length_append]
      have hf : 0 < f := by
        rcases Nat.eq_zero_or_pos f with h0 | h0
        · subst h0; simp at hlt; omega
        · exact h0
      have hdiv : n / 10 < 10 ^ f := by
        apply Nat.div_lt_of_lt_mul
        rw [← Nat.pow_succ']
        exact hlt
      rw [ih (n / 10) hf hdiv]
      have hlog : Nat.log 10 (n / 10) = Nat.log 10 n - 1 := Nat.log_div_base 10 n
      have hpos : 0 < Nat.log 10 n := Nat.log_pos (by norm_num) (by omega)
      simp [hlog]
      omega

lemma numDigits_log (n : Nat) : numDigits n = Nat.log 10 n + 1 := by
  unfold numDigits digitChars
  apply digitsAux_len _ _ (Nat.succ_pos n)
  have h1 : n < 10 ^ n := Nat.lt_pow_self (by norm_num) n
  have h2 : 10 ^ n ≤ 10 ^ (n + 1) := Nat.pow_le_pow_right (by norm_num) (by omega)
  omega

lemma numDigits_le (c k : Nat) (hk : 0 < k) (h : c < 10 ^ k) : numDigits c ≤ k := by
  rw [numDigits_log]
  rcases Nat.eq_zero_or_pos c with h0 | h0
  · subst h0; simp; omega
  · have := Nat.log_lt_of_lt_pow (by omega : c ≠ 0) h
    omega

lemma lt_pow_numDigits (c : Nat) : c < 10 ^ numDigits c := by
  rw [numDigits_log]
  exact Nat.lt_pow_succ_log_self (by norm_num) c

lemma pow_numDigits_le (c : Nat) (hc : c ≠ 0) : 10 ^ (numDigits c - 1) ≤ c := by
  rw [numDigits_log]
  simpa using Nat.pow_log_le_self 10 hc

lemma numDigits_pos (c : Nat) : 0 < numDigits c := by
  rw [numDigits_log]; omega

lemma numDigits_mul_pow10 (q : Nat) (hq : q ≠ 0) :
    ∀ w : Nat, numDigits (q * 10 ^ w) = numDigits q + w := by
  intro w
  induction w with
  | zero => simp
  | succ w ih =>
    have hne : q * 10 ^ w ≠ 0 := by positivity
    have : q * 10 ^ (w + 1) = q * 10 ^ w * 10 := by ring
    rw [this, numDigits_log, Nat.log_mul_base (by norm_num) hne, ← numDigits_log] at *
    omega

lemma exists_pow10_factor : ∀ n : Nat, n ≠ 0 → ∃ q z, n = q * 10 ^ z ∧ ¬ 10 ∣ q ∧ q ≠ 0 := by
  intro n
  induction n using Nat.strong_induction_on with
  | _ n ih =>
    intro hn
    by_cases hdvd : 10 ∣ n
    · obtain ⟨m, hm⟩ := hdvd
      have hm0 : m ≠ 0 := by rintro rfl; omega
      have hlt : m < n := by omega
      obtain ⟨q, z, h1, h2, h3⟩ := ih m hlt hm0
      exact ⟨q, z + 1, by rw [hm, h1]; ring, h2, h3⟩
    · exact ⟨n, 0, by ring, hdvd, hn⟩

lemma ten_zpow_ne (e : Int) : (10 : ℚ) ^ e ≠ 0 := zpow_ne_zero _ (by norm_num)

lemma ten_zpow_pos (e : Int) : 0 < (10 : ℚ) ^ e := zpow_pos (by norm_num) _

lemma cast_pow10 (k : Nat) : ((10 ^ k : ℕ) : ℚ) = (10 : ℚ) ^ (k : Int) := by
  push_cast
  rw [zpow_natCast]

lemma zpow_split (a b : Int) : (10 : ℚ) ^ (a + b) = 10 ^ a * 10 ^ b :=
  zpow_add₀ (by norm_num) a b

lemma value_of_int (S : Int) (m : Int) (b : Bool) :
    Decimal.value (.finite (if S = 0 then b else decide (S < 0)) S.natAbs m) =
      (S : ℚ) * 10 ^ m := by
  by_cases h0 : S = 0
  · subst h0
    cases b <;> simp [Decimal.value]
  · rw [if_neg h0]
    rcases lt_or_gt_of_ne h0 with h | h
    · rw [decide_eq_true h]
      have habs : ((S.natAbs : ℚ)) = -(S : ℚ) := by
        rw [Int.cast_natAbs]
        exact_mod_cast abs_of_neg h
      simp only [Decimal.value, if_true]
      rw [habs]
      ring
    · rw [decide_eq_false (by omega : ¬ S < 0)]
      have habs : ((S.natAbs : ℚ)) = (S : ℚ) := by
        rw [Int.cast_natAbs]
        exact_mod_cast abs_of_pos h
      simp only [Decimal.value, if_false, Bool.false_eq_true]
      rw [habs]
      ring

lemma pow_toNat_mul (e m : Int) (h : m ≤ e) :
    (10 : ℚ) ^ ((e - m).toNat) * 10 ^ m = 10 ^ e := by
  rw [← zpow_natCast (10 : ℚ) (e - m).toNat, ← zpow_split]
  congr 1
  omega

lemma alignedSum_value (s1 : Bool) (c1 : Nat) (e1 : Int) (s2 : Bool) (c2 : Nat) (e2 : Int) :
    ((alignedSum s1 c1 e1 s2 c2 e2 : Int) : ℚ) * 10 ^ (min e1 e2 : Int) =
      Decimal.value (.finite s1 c1 e1) + Decimal.value (.finite s2 c2 e2) := by
  unfold alignedSum Decimal.value
  cases s1 <;> cases s2 <;>
    (push_cast
     rw [add_mul, mul_assoc, mul_assoc,
       pow_toNat_mul e1 (min e1 e2) (min_le_left e1 e2),
       pow_toNat_mul e2 (min e1 e2) (min_le_right e1 e2)]
     simp
     try ring)

lemma fix_exact (sg : Bool) (c : Nat) (e : Int) (h1 : c < 10 ^ prec) (h2 : Etiny ≤ e)
    (h3 : (numDigits c : Int) + e ≤ Etop + prec) :
    ∃ c2 e2, Decimal.fix sg c e = .ok (.finite sg c2 e2) ∧
      Decimal.value (.finite sg c2 e2) = Decimal.value (.finite sg c e) := by
  by_cases hc : c = 0
  · subst hc
    refine ⟨0, min (max e Etiny) Emax, ?_, ?_⟩
    · simp [Decimal.fix]
    · cases sg <;> simp [Decimal.value]
  · have hnd : numDigits c ≤ prec := numDigits_le c prec (by norm_num [prec]) h1
    refine ⟨c, e, ?_, rfl⟩
    simp only [Decimal.fix, if_neg hc]
    rw [if_neg (by omega : ¬ Etop < (numDigits c : Int) + e - prec)]
    have hmax : max ((numDigits c : Int) + e - prec) Etiny ≤ e := by
      apply max_le _ h2
      omega
    rw [if_neg (not_lt.mpr hmax)]

/-- Exact addition: when the exact aligned sum fits the context (at most 28
digits, exponent in range), `Decimal.add` returns it unrounded. -/
lemma add_exact (s1 : Bool) (c1 : Nat) (e1 : Int) (s2 : Bool) (c2 : Nat) (e2 : Int)
    (hS : (alignedSum s1 c1 e1 s2 c2 e2).natAbs < 10 ^ prec)
    (hm : Etiny ≤ min e1 e2)
    (htop : (numDigits (alignedSum s1 c1 e1 s2 c2 e2).natAbs : Int) + min e1 e2 ≤ Etop + prec) :
    ∃ r, Decimal.add (.finite s1 c1 e1) (.finite s2 c2 e2) = .ok r ∧
      Decimal.value r = Decimal.value (.finite s1 c1 e1) + Decimal.value (.finite s2 c2 e2) := by
  obtain ⟨c2', e2', hfix, hval⟩ :=
    fix_exact (if alignedSum s1 c1 e1 s2 c2 e2 = 0 then s1 && s2
               else decide (alignedSum s1 c1 e1 s2 c2 e2 < 0))
      (alignedSum s1 c1 e1 s2 c2 e2).natAbs (min e1 e2) hS hm htop
  refine ⟨Decimal.finite (if alignedSum s1 c1 e1 s2 c2 e2 = 0 then s1 && s2
      else decide (alignedSum s1 c1 e1 s2 c2 e2 < 0)) c2' e2', ?_, ?_⟩
  · simp only [Decimal.add]
    exact hfix
  · rw [hval, value_of_int, alignedSum_value]

lemma value_negate (s : Bool) (c : Nat) (e : Int) :
    Decimal.value (.finite (!s) c e) = - Decimal.value (.finite s c e) := by
  cases s <;> simp [Decimal.value] <;> ring

/-- Exact subtraction, via `sub = add ∘ negate` on finite operands. -/
lemma sub_exact (s1 : Bool) (c1 : Nat) (e1 : Int) (s2 : Bool) (c2 : Nat) (e2 : Int)
    (hS : (alignedSum s1 c1 e1 (!s2) c2 e2).natAbs < 10 ^ prec)
    (hm : Etiny ≤ min e1 e2)
    (htop : (numDigits (alignedSum s1 c1 e1 (!s2) c2 e2).natAbs : Int) + min e1 e2 ≤ Etop + prec) :
    ∃ r, Decimal.sub (.finite s1 c1 e1) (.finite s2 c2 e2) = .ok r ∧
      Decimal.value r = Decimal.value (.finite s1 c1 e1) - Decimal.value (.finite s2 c2 e2) := by
  obtain ⟨r, hr, hv⟩ := add_exact s1 c1 e1 (!s2) c2 e2 hS hm htop
  refine ⟨r, ?_, ?_⟩
  · simp only [Decimal.sub, Decimal.negate]
    exact hr
  · rw [hv, value_negate]
    ring

/-- Exact multiplication: when the exact coefficient product fits the context,
`Decimal.mul` returns it unrounded. -/
lemma mul_exact (s1 : Bool) (c1 : Nat) (e1 : Int) (s2 : Bool) (c2 : Nat) (e2 : Int)
    (hS : c1 * c2 < 10 ^ prec)
    (hm : Etiny ≤ e1 + e2)
    (htop : (numDigits (c1 * c2) : Int) + (e1 + e2) ≤ Etop + prec) :
    ∃ r, Decimal.mul (.finite s1 c1 e1) (.finite s2 c2 e2) = .ok r ∧
      Decimal.value r = Decimal.value (.finite s1 c1 e1) * Decimal.value (.finite s2 c2 e2) := by
  obtain ⟨c2', e2', hfix, hval⟩ := fix_exact (s1 != s2) (c1 * c2) (e1 + e2) hS hm htop
  refine ⟨Decimal.finite (s1 != s2) c2' e2', ?_, ?_⟩
  · simp only [Decimal.mul]
    exact hfix
  · rw [hval]
    unfold Decimal.value
    cases s1 <;> cases s2 <;>
      (push_cast
       rw [zpow_split]
       simp
       try ring)

lemma roundHalfEven_dvd (c d : Nat) (h : 10 ^ d ∣ c) : roundHalfEven c d = c / 10 ^ d := by
  unfold roundHalfEven
  have hr : c % 10 ^ d = 0 := Nat.dvd_iff_mod_eq_zero.mp h
  rw [if_pos hr]

lemma stripLoop_value (k : Nat) : ∀ (c : Nat) (e : Int), c ≠ 0 →
    (stripLoop k c e).1 ≠ 0 ∧
    ((stripLoop k c e).1 : ℚ) * 10 ^ (stripLoop k c e).2 = (c : ℚ) * 10 ^ e := by
  induction k with
  | zero => intro c e hc; exact ⟨hc, rfl⟩
  | succ k ih =>
    intro c e hc
    rw [stripLoop]
    by_cases hdvd : c % 10 = 0
    · rw [if_pos hdvd]
      have hc10 : c / 10 ≠ 0 := by
        intro h0
        have := Nat.div_add_mod c 10
        omega
      obtain ⟨h1, h2⟩ := ih (c / 10) (e + 1) hc10
      refine ⟨h1, h2.trans ?_⟩
      have hc' : (c : ℚ) = 10 * ((c / 10 : ℕ) : ℚ) := by
        have h10 : 10 * (c / 10) = c := by omega
        exact_mod_cast h10.symm
      have hz : (10 : ℚ) ^ (e + 1) = 10 ^ e * 10 := by rw [zpow_split e 1, zpow_one]
      rw [hz, hc']
      ring
    · rw [if_neg hdvd]
      exact ⟨hc, rfl⟩

lemma eq_core_structure (C1 : Nat) (E1 : Int) (q0 : Nat) (qe : Int)
    (hC : C1 ≠ 0) (hq : q0 ≠ 0) (h10 : ¬ 10 ∣ q0)
    (hval : (C1 : ℚ) * 10 ^ E1 = (q0 : ℚ) * 10 ^ qe) :
    ∃ w : Nat, C1 = q0 * 10 ^ w ∧ E1 + w = qe := by
  rcases le_or_lt E1 qe with hle | hlt
  · refine ⟨(qe - E1).toNat, ?_, by omega⟩
    have hq' : (C1 : ℚ) = (q0 : ℚ) * 10 ^ ((qe - E1).toNat : ℕ) := by
      apply mul_right_cancel₀ (ten_zpow_ne E1)
      rw [hval, mul_assoc, ← zpow_natCast (10 : ℚ) (qe - E1).toNat, ← zpow_split]
      congr 1
      congr 1
      omega
    exact_mod_cast hq'
  · exfalso
    have hq' : (q0 : ℚ) = (C1 : ℚ) * 10 ^ ((E1 - qe).toNat : ℕ) := by
      apply mul_right_cancel₀ (ten_zpow_ne qe)
      rw [← hval, mul_assoc, ← zpow_natCast (10 : ℚ) (E1 - qe).toNat, ← zpow_split]
      congr 1
      congr 1
      omega
    have hnat : q0 = C1 * 10 ^ (E1 - qe).toNat := by exact_mod_cast hq'
    apply h10
    rw [hnat]
    exact Dvd.dvd.mul_left (dvd_pow_self 10 (by omega : (E1 - qe).toNat ≠ 0)) C1

lemma fix_exact_tz (sg : Bool) (q0 w : Nat) (E : Int) (hq0 : q0 ≠ 0)
    (hnd : numDigits q0 ≤ prec)
    (hlo : Etiny ≤ (numDigits q0 : Int) + (E + w) - prec)
    (hhi : (numDigits q0 : Int) + (E + w) - prec ≤ Etop) :
    ∃ C2 E2, Decimal.fix sg (q0 * 10 ^ w) E = .ok (.finite sg C2 E2) ∧
      (C2 : ℚ) * 10 ^ E2 = (q0 : ℚ) * 10 ^ (E + (w : Int)) := by
  have hc0 : q0 * 10 ^ w ≠ 0 := by positivity
  have hndC : numDigits (q0 * 10 ^ w) = numDigits q0 + w := numDigits_mul_pow10 q0 hq0 w
  simp only [Decimal.fix, if_neg hc0]
  rw [hndC]
  rw [if_neg (by push_cast; omega : ¬ Etop < ((numDigits q0 + w : ℕ) : Int) + E - prec)]
  rw [max_eq_left (by push_cast; omega :
    Etiny ≤ ((numDigits q0 + w : ℕ) : Int) + E - prec)]
  by_cases hround : E < ((numDigits q0 + w : ℕ) : Int) + E - prec
  · rw [if_pos hround]
    push_cast at hround
    have hdropval : (((numDigits q0 + w : ℕ) : Int) + E - prec - E).toNat =
        numDigits q0 + w - prec := by omega
    rw [hdropval]
    have hdle : numDigits q0 + w - prec ≤ w := by omega
    have hdvd : 10 ^ (numDigits q0 + w - prec) ∣ q0 * 10 ^ w :=
      Dvd.dvd.mul_left (pow_dvd_pow 10 hdle) q0
    rw [roundHalfEven_dvd _ _ hdvd]
    have hquot : q0 * 10 ^ w / 10 ^ (numDigits q0 + w - prec) =
        q0 * 10 ^ (w - (numDigits q0 + w - prec)) := by
      rw [show (10 : ℕ) ^ w = 10 ^ (w - (numDigits q0 + w - prec)) * 10 ^ (numDigits q0 + w - prec) by
        rw [← pow_add]; congr 1; omega]
      rw [← mul_assoc, Nat.mul_div_cancel _ (by positivity)]
    rw [hquot]
    have hnd2 : numDigits (q0 * 10 ^ (w - (numDigits q0 + w - prec))) = prec := by
      rw [numDigits_mul_pow10 q0 hq0]
      omega
    have hcond : ¬ prec < numDigits (q0 * 10 ^ (w - (numDigits q0 + w - prec))) := by
      rw [hnd2]
      omega
    rw [if_neg hcond, if_neg hcond]
    rw [if_neg (by push_cast; omega : ¬ Etop < ((numDigits q0 + w : ℕ) : Int) + E - prec)]
    refine ⟨_, _, rfl, ?_⟩
    push_cast
    rw [mul_assoc, ← zpow_natCast (10 : ℚ) (w - (numDigits q0 + w - prec)), ← zpow_split]
    congr 1
    congr 1
    omega
  · rw [if_neg hround]
    refine ⟨_, _, rfl, ?_⟩
    push_cast
    rw [mul_assoc, ← zpow_natCast (10 : ℚ) w, ← zpow_split]
    congr 1
    congr 1
    omega

lemma zpow_collect (a : ℚ) (c : Nat) (x : Int) (hne : a = 10) :
    a ^ (c : ℕ) * a ^ (x : Int) = a ^ ((c : Int) + x) := by
  subst hne
  rw [← zpow_natCast (10 : ℚ) c, ← zpow_split]

/-- When the exact quotient of two finite coefficients is representable with
fewer than `prec + 1` significant digits, the shifted integer division of
`__truediv__` is exact: the dividend is the quotient coefficient times the
divisor, with at least one factor of 10 to spare toward the ideal exponent. -/
lemma divCore (c1 c2 qc : Nat) (e1 e2 qe : Int)
    (hc1 : c1 ≠ 0) (hc2 : c2 ≠ 0) (hqc : qc ≠ 0) (hqclt : qc < 10 ^ prec)
    (heq : (c1 : ℚ) * 10 ^ e1 = (qc : ℚ) * 10 ^ qe * ((c2 : ℚ) * 10 ^ e2)) :
    ∃ tn : Nat, 1 ≤ tn ∧ divNum c1 c2 = qc * 10 ^ tn * divDen c1 c2 ∧
      qe = e1 - e2 - divShift c1 c2 + tn := by
  have hb1 : (10 : ℚ) ^ ((numDigits c1 - 1 : ℕ)) ≤ (c1 : ℚ) := by
    exact_mod_cast pow_numDigits_le c1 hc1
  have hprod : (qc : ℚ) * c2 < 10 ^ (prec : ℕ) * 10 ^ (numDigits c2 : ℕ) := by
    exact_mod_cast Nat.mul_lt_mul'' hqclt (lt_pow_numDigits c2)
  have hchain : (10 : ℚ) ^ (((numDigits c1 - 1 : ℕ) : Int) + e1) <
      10 ^ ((prec : Int) + (numDigits c2 : Int) + qe + e2) := by
    have e1pos := ten_zpow_pos e1
    have l1 : (10 : ℚ) ^ (((numDigits c1 - 1 : ℕ) : Int) + e1) ≤ (c1 : ℚ) * 10 ^ e1 := by
      rw [← zpow_collect 10 (numDigits c1 - 1) e1 rfl]
      exact mul_le_mul_of_nonneg_right hb1 (le_of_lt e1pos)
    have l2 : (qc : ℚ) * 10 ^ qe * ((c2 : ℚ) * 10 ^ e2) <
        10 ^ ((prec : Int) + (numDigits c2 : Int) + qe + e2) := by
      have harr : (qc : ℚ) * 10 ^ qe * ((c2 : ℚ) * 10 ^ e2) =
          ((qc : ℚ) * c2) * (10 ^ qe * 10 ^ e2) := by ring
      have hbig : ((10 : ℚ) ^ (prec : ℕ) * 10 ^ (numDigits c2 : ℕ)) * (10 ^ qe * 10 ^ e2) =
          10 ^ ((prec : Int) + (numDigits c2 : Int) + qe + e2) := by
        rw [← zpow_natCast (10 : ℚ) prec, ← zpow_natCast (10 : ℚ) (numDigits c2),
          ← zpow_split, ← zpow_split, ← zpow_split]
        congr 1
        omega
      rw [harr, ← hbig]
      apply mul_lt_mul_of_pos_right hprod
      exact mul_pos (ten_zpow_pos qe) (ten_zpow_pos e2)
    calc (10 : ℚ) ^ (((numDigits c1 - 1 : ℕ) : Int) + e1) ≤ (c1 : ℚ) * 10 ^ e1 := l1
      _ = (qc : ℚ) * 10 ^ qe * ((c2 : ℚ) * 10 ^ e2) := heq
      _ < _ := l2
  have hexp := (zpow_lt_zpow_iff_right₀ (by norm_num : (1 : ℚ) < 10)).mp hchain
  have hnd1pos := numDigits_pos c1
  have hexp2 : ((numDigits c1 - 1 : Nat) : Int) + e1 <
      (prec : Int) + (numDigits c2 : Int) + qe + e2 := hexp
  have htn : 1 ≤ qe - (e1 - e2 - divShift c1 c2) := by
    unfold divShift
    omega
  refine ⟨(qe - (e1 - e2 - divShift c1 c2)).toNat, by omega, ?_, by omega⟩
  have hden0 : (divDen c1 c2 : ℚ) ≠ 0 := by
    unfold divDen
    split_ifs <;> positivity
  have hQ : ((divNum c1 c2 : ℕ) : ℚ) =
      ((qc * 10 ^ (qe - (e1 - e2 - divShift c1 c2)).toNat * divDen c1 c2 : ℕ) : ℚ) := by
    by_cases hsh : 0 ≤ divShift c1 c2
    · unfold divNum divDen
      rw [if_pos hsh, if_pos hsh]
      push_cast
      apply mul_right_cancel₀ (ten_zpow_ne (e1 - divShift c1 c2))
      have key1 : (c1 : ℚ) * 10 ^ ((divShift c1 c2).toNat : ℕ) * 10 ^ (e1 - divShift c1 c2) =
          (c1 : ℚ) * 10 ^ e1 := by
        rw [mul_assoc, zpow_collect 10 (divShift c1 c2).toNat (e1 - divShift c1 c2) rfl]
        congr 1
        congr 1
        omega
      have key2 : (qc : ℚ) * 10 ^ ((qe - (e1 - e2 - divShift c1 c2)).toNat : ℕ) * c2 *
          10 ^ (e1 - divShift c1 c2) = (qc : ℚ) * 10 ^ qe * ((c2 : ℚ) * 10 ^ e2) := by
        have harr : (qc : ℚ) * 10 ^ ((qe - (e1 - e2 - divShift c1 c2)).toNat : ℕ) * c2 *
            10 ^ (e1 - divShift c1 c2) =
            (qc : ℚ) * c2 * (10 ^ ((qe - (e1 - e2 - divShift c1 c2)).toNat : ℕ) *
              10 ^ (e1 - divShift c1 c2)) := by ring
        rw [harr, zpow_collect 10 _ _ rfl,
          show (((qe - (e1 - e2 - divShift c1 c2)).toNat : Int) + (e1 - divShift c1 c2)) =
            qe + e2 by omega, zpow_split]
        ring
      rw [key1, heq, ← key2]
    · unfold divNum divDen
      rw [if_neg hsh, if_neg hsh]
      push_cast
      apply mul_right_cancel₀ (ten_zpow_ne e1)
      have key2 : (qc : ℚ) * 10 ^ ((qe - (e1 - e2 - divShift c1 c2)).toNat : ℕ) *
          ((c2 : ℚ) * 10 ^ ((-divShift c1 c2).toNat : ℕ)) * 10 ^ e1 =
          (qc : ℚ) * 10 ^ qe * ((c2 : ℚ) * 10 ^ e2) := by
        have harr : (qc : ℚ) * 10 ^ ((qe - (e1 - e2 - divShift c1 c2)).toNat : ℕ) *
            ((c2 : ℚ) * 10 ^ ((-divShift c1 c2).toNat : ℕ)) * 10 ^ e1 =
            (qc : ℚ) * c2 * (10 ^ ((qe - (e1 - e2 - divShift c1 c2)).toNat : ℕ) *
              (10 ^ ((-divShift c1 c2).toNat : ℕ) * 10 ^ e1)) := by ring
        rw [harr, zpow_collect 10 ((-divShift c1 c2).toNat) e1 rfl,
          zpow_collect 10 ((qe - (e1 - e2 - divShift c1 c2)).toNat) _ rfl,
          show (((qe - (e1 - e2 - divShift c1 c2)).toNat : Int) +
            (((-divShift c1 c2).toNat : Int) + e1)) = qe + e2 by omega, zpow_split]
        ring
      rw [heq, ← key2]
  have := hQ
  exact_mod_cast this

/-- Exact division: when the quotient of two finite decimals is exactly
representable within the context precision and its exponent is in range,
`Decimal.div` returns exactly it. -/
lemma div_exact (s1 : Bool) (c1 : Nat) (e1 : Int) (s2 : Bool) (c2 : Nat) (e2 : Int)
    (hc2 : c2 ≠ 0)
    (hfit : c1 = 0 ∨ ∃ qc : Nat, ∃ qe : Int, qc ≠ 0 ∧ qc < 10 ^ prec ∧
      Etiny + prec ≤ qe + 1 ∧ qe ≤ Etop ∧
      (c1 : ℚ) * 10 ^ e1 = (qc : ℚ) * 10 ^ qe * ((c2 : ℚ) * 10 ^ e2)) :
    ∃ r, Decimal.div (.finite s1 c1 e1) (.finite s2 c2 e2) = .ok r ∧
      Decimal.value r = Decimal.value (.finite s1 c1 e1) / Decimal.value (.finite s2 c2 e2) := by
  have hden2 : ((c2 : ℚ) * 10 ^ e2) ≠ 0 :=
    mul_ne_zero (Nat.cast_ne_zero.mpr hc2) (ten_zpow_ne e2)
  rcases hfit with hc1z | ⟨qc, qe, hqc, hqclt, hqelo, hqehi, heq⟩
  · subst hc1z
    refine ⟨.finite (s1 != s2) 0 (min (max (e1 - e2) Etiny) Emax), ?_, ?_⟩
    · simp only [Decimal.div]
      rw [if_neg hc2]
      simp [Decimal.fix]
    · cases s1 <;> cases s2 <;> simp [Decimal.value]
  · have hc1 : c1 ≠ 0 := by
      intro h0
      rw [h0] at heq
      simp only [Nat.cast_zero, zero_mul] at heq
      exact (mul_ne_zero (mul_ne_zero (Nat.cast_ne_zero.mpr hqc) (ten_zpow_ne qe)) hden2)
        heq.symm
    obtain ⟨tn, htn1, hNat, hqerel⟩ := divCore c1 c2 qc e1 e2 qe hc1 hc2 hqc hqclt heq
    have hdenN : divDen c1 c2 ≠ 0 := by
      unfold divDen
      split_ifs <;> positivity
    have hrem : divNum c1 c2 % divDen c1 c2 = 0 := by
      rw [hNat]
      exact Nat.mul_mod_left _ _
    have hcoeff : divNum c1 c2 / divDen c1 c2 = qc * 10 ^ tn := by
      rw [hNat]
      exact Nat.mul_div_cancel _ (Nat.pos_of_ne_zero hdenN)
    have hcoeff0 : divNum c1 c2 / divDen c1 c2 ≠ 0 := by
      rw [hcoeff]
      positivity
    obtain ⟨hsl0, hslval⟩ := stripLoop_value (divShift c1 c2).toNat
      (divNum c1 c2 / divDen c1 c2) (e1 - e2 - divShift c1 c2) hcoeff0
    obtain ⟨q0, z, hq0eq, hq0nd, hq00⟩ := exists_pow10_factor qc hqc
    have hndqc : numDigits qc ≤ prec := numDigits_le qc prec (by norm_num [prec]) hqclt
    have hndsplit : numDigits qc = numDigits q0 + z := by
      rw [hq0eq]
      exact numDigits_mul_pow10 q0 hq00 z
    have hval2 :
        ((stripLoop (divShift c1 c2).toNat (divNum c1 c2 / divDen c1 c2)
            (e1 - e2 - divShift c1 c2)).1 : ℚ) *
          10 ^ (stripLoop (divShift c1 c2).toNat (divNum c1 c2 / divDen c1 c2)
            (e1 - e2 - divShift c1 c2)).2 = (q0 : ℚ) * 10 ^ (qe + z) := by
      rw [hslval, hcoeff, hq0eq]
      push_cast
      rw [mul_assoc, mul_assoc, zpow_collect 10 tn _ rfl, zpow_collect 10 z _ rfl]
      congr 1
      congr 1
      omega
    obtain ⟨w, hw1, hw2⟩ := eq_core_structure _ _ q0 (qe + z) hsl0 hq00 hq0nd hval2
    have hndq0 : numDigits q0 ≤ prec := by omega
    have hq0pos := numDigits_pos q0
    obtain ⟨C2, E2, hfix, hfixval⟩ := fix_exact_tz (s1 != s2) q0 w
      (stripLoop (divShift c1 c2).toNat (divNum c1 c2 / divDen c1 c2)
        (e1 - e2 - divShift c1 c2)).2 hq00 hndq0
      (by unfold Etiny Emin Etop Emax at *; omega)
      (by unfold Etiny Emin Etop Emax at *; omega)
    refine ⟨.finite (s1 != s2) C2 E2, ?_, ?_⟩
    · simp only [Decimal.div]
      rw [if_neg hc2, if_neg hc1, if_neg (by rw [hrem]; simp)]
      rw [hw1]
      exact hfix
    · have hmag : (C2 : ℚ) * 10 ^ E2 = (qc : ℚ) * 10 ^ qe := by
        rw [hfixval, hw2, hq0eq]
        push_cast
        rw [mul_assoc, zpow_collect 10 z qe rfl]
        congr 1
        congr 1
        omega
      have hcore : (C2 : ℚ) * 10 ^ E2 = ((c1 : ℚ) * 10 ^ e1) / ((c2 : ℚ) * 10 ^ e2) := by
        rw [hmag, eq_div_iff hden2]
        exact heq.symm
      cases s1 <;> cases s2 <;> simpa [Decimal.value, div_neg, neg_div] using hcore

/-- The exact rational result of one of the four operations. -/
def opRatQ (op : String) (x y : ℚ) : ℚ :=
  if op = "+" then x + y
  else if op = "-" then x - y
  else if op = "*" then x * y
  else x / y

/-- The exact aligned sum fits the default context unrounded. -/
def addFits : Decimal → Decimal → Prop
  | .finite s1 c1 e1, .finite s2 c2 e2 =>
    (alignedSum s1 c1 e1 s2 c2 e2).natAbs < 10 ^ prec ∧ Etiny ≤ min e1 e2 ∧
    (numDigits (alignedSum s1 c1 e1 s2 c2 e2).natAbs : Int) + min e1 e2 ≤ Etop + prec
  | _, _ => False

/-- The exact aligned difference fits the default context unrounded. -/
def subFits : Decimal → Decimal → Prop
  | .finite s1 c1 e1, .finite s2 c2 e2 =>
    (alignedSum s1 c1 e1 (!s2) c2 e2).natAbs < 10 ^ prec ∧ Etiny ≤ min e1 e2 ∧
    (numDigits (alignedSum s1 c1 e1 (!s2) c2 e2).natAbs : Int) + min e1 e2 ≤ Etop + prec
  | _, _ => False

/-- The exact coefficient product fits the default context unrounded. -/
def mulFits : Decimal → Decimal → Prop
  | .finite _ c1 e1, .finite _ c2 e2 =>
    c1 * c2 < 10 ^ prec ∧ Etiny ≤ e1 + e2 ∧
    (numDigits (c1 * c2) : Int) + (e1 + e2) ≤ Etop + prec
  | _, _ => False

/-- The divisor is nonzero and the exact quotient is representable within the
default context: at most 28 significant digits, exponent in range. -/
def divFits : Decimal → Decimal → Prop
  | .finite _ c1 e1, .finite _ c2 e2 =>
    c2 ≠ 0 ∧ (c1 = 0 ∨ ∃ qc : Nat, ∃ qe : Int, qc ≠ 0 ∧ qc < 10 ^ prec ∧
      Etiny + prec ≤ qe + 1 ∧ qe ≤ Etop ∧
      (c1 : ℚ) * 10 ^ e1 = (qc : ℚ) * 10 ^ qe * ((c2 : ℚ) * 10 ^ e2))
  | _, _ => False

/-- The operands are finite and the exact result of the operation is
representable in the default decimal context without rounding. -/
def opFits (op : String) (d1 d2 : Decimal) : Prop :=
  if op = "+" then addFits d1 d2
  else if op = "-" then subFits d1 d2
  else if op = "*" then mulFits d1 d2
  else divFits d1 d2

lemma opFits_finite (op : String) (d1 d2 : Decimal) (h : opFits op d1 d2) :
    ∃ s1 c1 e1 s2 c2 e2, d1 = Decimal.finite s1 c1 e1 ∧ d2 = Decimal.finite s2 c2 e2 := by
  rcases d1 with ⟨s1, c1, e1⟩ | s1 | ⟨s1, g1, p1⟩ <;>
    rcases d2 with ⟨s2, c2, e2⟩ | s2 | ⟨s2, g2, p2⟩
  · exact ⟨s1, c1, e1, s2, c2, e2, rfl, rfl⟩
  all_goals rw [opFits] at h; split_ifs at h <;> exact h.elim

/-- C3 (amended): when the three-token expression parses to two finite
decimals, the operator is one of `+ - * /`, and the exact result fits the
default context without rounding (`opFits`), `calculate` returns
`Result: ` followed by a decimal whose rational value is the exact
mathematical result of the operation. Without the `opFits` hypothesis the
claim is false: results are rounded to 28 significant digits
(see the counterexample). -/
theorem calculate_exact_result (s n1 op n2 : String) (d1 d2 : Decimal)
    (hsplit : pySplit s = [n1, op, n2])
    (h1 : Decimal.parse n1 = some d1) (h2 : Decimal.parse n2 = some d2)
    (hop : op = "+" ∨ op = "-" ∨ op = "*" ∨ op = "/")
    (hfit : opFits op d1 d2) :
    ∃ r : Decimal, calculate s = "Result: " ++ Decimal.toString r ∧
      Decimal.value r = opRatQ op (Decimal.value d1) (Decimal.value d2) := by
  obtain ⟨s1, c1, e1, s2, c2, e2, rfl, rfl⟩ := opFits_finite op d1 d2 hfit
  have hbase : calcBody s =
      (if op = "+" then opResult (Decimal.add (.finite s1 c1 e1) (.finite s2 c2 e2))
       else if op = "-" then opResult (Decimal.sub (.finite s1 c1 e1) (.finite s2 c2 e2))
       else if op = "*" then opResult (Decimal.mul (.finite s1 c1 e1) (.finite s2 c2 e2))
       else if op = "/" then
         if (Decimal.finite s2 c2 e2).isZero then Except.ok "Error: Cannot divide by zero."
         else opResult (Decimal.div (.finite s1 c1 e1) (.finite s2 c2 e2))
       else Except.ok ("Error: Unknown operator '" ++ op ++ "'")) := by
    unfold calcBody
    rw [hsplit]
    dsimp only
    rw [h1]
    dsimp only
    rw [h2]
  rcases hop with rfl | rfl | rfl | rfl
  · rw [opFits, if_pos rfl] at hfit
    simp only [addFits] at hfit
    obtain ⟨hS, hm, htop⟩ := hfit
    obtain ⟨r, hr, hv⟩ := add_exact s1 c1 e1 s2 c2 e2 hS hm htop
    refine ⟨r, ?_, ?_⟩
    · rw [calculate, hbase, if_pos rfl, hr]; rfl
    · rw [hv, opRatQ, if_pos rfl]
  · rw [opFits, if_neg (by decide), if_pos rfl] at hfit
    simp only [subFits] at hfit
    obtain ⟨hS, hm, htop⟩ := hfit
    obtain ⟨r, hr, hv⟩ := sub_exact s1 c1 e1 s2 c2 e2 hS hm htop
    refine ⟨r, ?_, ?_⟩
    · rw [calculate, hbase, if_neg (by decide), if_pos rfl, hr]; rfl
    · rw [hv, opRatQ, if_neg (by decide), if_pos rfl]
  · rw [opFits, if_neg (by decide), if_neg (by decide), if_pos rfl] at hfit
    simp only [mulFits] at hfit
    obtain ⟨hS, hm, htop⟩ := hfit
    obtain ⟨r, hr, hv⟩ := mul_exact s1 c1 e1 s2 c2 e2 hS hm htop
    refine ⟨r, ?_, ?_⟩
    · rw [calculate, hbase, if_neg (by decide), if_neg (by decide), if_pos rfl, hr]; rfl
    · rw [hv, opRatQ, if_neg (by decide), if_neg (by decide), if_pos rfl]
  · rw [opFits, if_neg (by decide), if_neg (by decide), if_neg (by decide)] at hfit
    simp only [divFits] at hfit
    obtain ⟨hc2, hq⟩ := hfit
    obtain ⟨r, hr, hv⟩ := div_exact s1 c1 e1 s2 c2 e2 hc2 hq
    have hzero : ¬ (Decimal.finite s2 c2 e2).isZero = true := by
      simp [Decimal.isZero, hc2]
    refine ⟨r, ?_, ?_⟩
    · rw [calculate, hbase, if_neg (by decide), if_neg (by decide), if_neg (by decide),
        if_pos rfl, if_neg hzero, hr]; rfl
    · rw [hv, opRatQ, if_neg (by decide), if_neg (by decide), if_neg (by decide)]

theorem calculate_exact_result_witness :
    (∃ r : Decimal, calculate "10.5 - 2.7" = "Result: " ++ Decimal.toString r ∧
      Decimal.value r = opRatQ "-" (Decimal.value (Decimal.finite false 105 (-1)))
        (Decimal.value (Decimal.finite false 27 (-1)))) ∧
    calculate "10.5 - 2.7" = "Result: 7.8" :=
  ⟨calculate_exact_result "10.5 - 2.7" "10.5" "-" "2.7"
      (Decimal.finite false 105 (-1)) (Decimal.finite false 27 (-1))
      (by decide) (by decide) (by decide) (Or.inr (Or.inl rfl))
      (by rw [opFits, if_neg (by decide), if_pos rfl]
          simp only [subFits]
          exact ⟨by decide, by decide, by decide⟩),
    by decide⟩

/-- C3 counterexample: adding two 28-digit numbers rounds the exact 29-digit
sum to 28 significant digits (half-even), so the printed result
`2.000000000000000000000000000E+28` does not equal the exact sum
`19999999999999999999999999998`: precision is limited to 28 significant
digits by the default context, not unlimited. -/
theorem calculate_rounded_addition_counterexample :
    calculate "9999999999999999999999999999 + 9999999999999999999999999999" =
      "Result: 2.000000000000000000000000000E+28" ∧
    Decimal.parse "9999999999999999999999999999" =
      some (Decimal.finite false 9999999999999999999999999999 0) ∧
    Decimal.add (Decimal.finite false 9999999999999999999999999999 0)
        (Decimal.finite false 9999999999999999999999999999 0) =
      Except.ok (Decimal.finite false 2000000000000000000000000000 1) ∧
    Decimal.value (Decimal.finite false 2000000000000000000000000000 1) ≠
      Decimal.value (Decimal.finite false 9999999999999999999999999999 0) +
        Decimal.value (Decimal.finite false 9999999999999999999999999999 0) := by
  refine ⟨by decide, by decide, by rfl, ?_⟩
  simp only [Decimal.value, if_neg (by decide : ¬ false = true), zpow_one, zpow_zero]
  norm_num
